import Mathlib

/-!
Verification of the pyx12 context reader (`x12context.py`) and the
id-qualified XML tag naming (`x12xml_idtagqual.py`).

This file gives a shallow embedding of the two source files and proves
properties of the embedded definitions.

External collaborators of the context reader (the raw segment source,
the grammar-map library `map_if`, the grammar walker `map_walker`, the
map index and the error handler) are not part of the source under
verification; they are modelled as explicit parameters (an `Env`
record) or, where a claim depends on their behaviour, modelled from the
specification's description of their contracts (each such definition
says so in its doc comment).

Machine conventions:
* a Python `None`-able value is an `Option`;
* a Python local variable that may be unbound (read before any
  assignment raises `NameError`) is an `Option (Option _)` in the
  reader state, with `none` meaning "unbound";
* Python exceptions are an explicit `PyErr` value in an `Except`;
* the identity of the two module-level default list objects of
  `X12SegmentDataNode.__init__` (Python evaluates default arguments
  once) is tracked by allocation indices: the two shared default lists
  are indices `0` and `1`, any freshly created pair of lists receives
  two fresh indices `≥ 2`.
-/

/-- A decoded X12 segment: `seg_id` tag plus element values addressed by
reference designator (e.g. `"GS01"`), mirroring `segment.Segment.get_value`.
A missing designator yields `none` (Python `None`). -/
structure Seg where
  segId : String
  vals : List (String × String)
deriving DecidableEq, Repr

/-- `Segment.get_value(designator)`: first binding of the designator, else
`none`. -/
def Seg.getValue (s : Seg) (d : String) : Option String :=
  s.vals.lookup d

/-- A grammar ("map") node as seen by `x12context.py`: its full path of ids
from the map root (`get_path`), the `is_first_seg_in_loop()` flag and the
`is_segment()` flag.  `map_if` nodes are external to the source under
verification; this carries exactly the queries the context reader makes. -/
structure MapNode where
  path : List String
  firstSeg : Bool
  isSeg : Bool
deriving DecidableEq, Repr

/-- `x12_node.id`: the last component of the node's path. -/
def MapNode.id (n : MapNode) : String :=
  n.path.getLastD ""

/-- A pure loop grammar node addressed by its path (loops are neither
segments nor first-segments). -/
def loopNode (p : List String) : MapNode :=
  ⟨p, false, false⟩

/-- `map_walker.pop_to_parent_loop`: the enclosing loop of a segment node
(drop the segment id from its path); a loop node is its own enclosing loop. -/
def popToParentLoop (n : MapNode) : MapNode :=
  if n.isSeg then loopNode n.path.dropLast else n

/-- Python exception kinds raised (or re-raised) by the embedded code. -/
inductive PyErr where
  | engine (msg : String)
  | attr
  | indexErr
  | nameErr (v : String)
deriving DecidableEq, Repr

/-- Length of the longest common prefix of two paths. -/
def commonPrefixLen : List String → List String → Nat
  | a :: as, b :: bs => if a = b then commonPrefixLen as bs + 1 else 0
  | _, _ => 0

/-- The chain of loop nodes along path `p` strictly below depth `k`,
outermost first. -/
def loopChain (p : List String) (k : Nat) : List MapNode :=
  (List.range (p.length - k)).map (fun i => loopNode (p.take (k + i + 1)))

/-- Modelled from the spec: `map_walker.get_pop_loops` (the walker is not
under `src/`).  "Pop: ... once per loop level that the Grammar Matcher
reports as exited between the previous and new grammar position"; the list
of loop levels exited moving from `s` to `e`, innermost first.  On a loop
repeat (`e` is flagged first-segment-in-loop) the repeated loop itself is
also exited ("re-synchronizing on loop repeats"). -/
def getPopLoops (s e : MapNode) : List MapNode :=
  let p := (popToParentLoop s).path
  let q := (popToParentLoop e).path
  let k0 := commonPrefixLen p q
  let k := if e.firstSeg then min k0 (q.length - 1) else k0
  (loopChain p k).reverse

/-- Modelled from the spec: `map_walker.get_push_loops` (the walker is not
under `src/`).  The list of loop levels newly entered moving from `s` to
`e`, outermost first; on a loop repeat the repeated loop itself is
re-entered. -/
def getPushLoops (s e : MapNode) : List MapNode :=
  let p := (popToParentLoop s).path
  let q := (popToParentLoop e).path
  let k0 := commonPrefixLen p q
  let k := if e.firstSeg then min k0 (q.length - 1) else k0
  loopChain q k

/-! ## Grammar map counter tables

`map_if` maps carry mutable per-node occurrence counters; the context
reader touches them only through `getnodebypath(path).set_cur_count(ct)`
and `reset_cur_count()`.  A map is modelled as its file name plus the
counter table, an association list from node path to current count. -/

/-- Current count of the node at `p`, `none` when no such node exists. -/
def lookupCount : List (List String × Nat) → List String → Option Nat
  | [], _ => none
  | (q, v) :: rest, p => if q = p then some v else lookupCount rest p

/-- Replace the count of the (first) entry for `p`. -/
def setAssoc : List (List String × Nat) → List String → Nat → List (List String × Nat)
  | [], _, _ => []
  | (q, v) :: rest, p, c => if q = p then (q, c) :: rest else (q, v) :: setAssoc rest p c

/-- A loaded grammar map: file name and counter table. -/
structure GMap where
  file : String
  counts : List (List String × Nat)
deriving DecidableEq, Repr

/-- `cur_map.getnodebypath(path).set_cur_count(v)`: fails (`none`) when the
path does not exist in the map (Python: lookup of a missing node followed by
an attribute access raises). -/
def setCurCount (m : GMap) (p : List String) (v : Nat) : Option GMap :=
  if (lookupCount m.counts p).isSome then
    some { m with counts := setAssoc m.counts p v }
  else
    none

/-- `X12ContextReader._apply_loop_count`: apply each recorded
`(path, count)` pair onto the new map, in order. -/
def applyLoopCount (ctList : List (List String × Nat)) (m : GMap) : Option GMap :=
  match ctList with
  | [] => some m
  | (p, c) :: rest =>
    match setCurCount m p c with
    | none => none
    | some m1 => applyLoopCount rest m1

/-- `X12ContextReader._reset_isa_counts`: set `/ISA_LOOP` and
`/ISA_LOOP/ISA` counts to 1. -/
def resetIsaCounts (m : GMap) : Option GMap :=
  match setCurCount m ["ISA_LOOP"] 1 with
  | none => none
  | some m1 => setCurCount m1 ["ISA_LOOP", "ISA"] 1

/-- `X12ContextReader._reset_gs_counts`: `reset_cur_count()` (modelled from
the spec as setting the canonical starting value 0) then set
`/ISA_LOOP/GS_LOOP` to 1, then set `/ISA_LOOP/GS_LOOP/GS` to 1. -/
def resetGsCounts (m : GMap) : Option GMap :=
  match setCurCount m ["ISA_LOOP", "GS_LOOP"] 0 with
  | none => none
  | some m1 =>
    match setCurCount m1 ["ISA_LOOP", "GS_LOOP"] 1 with
    | none => none
    | some m2 => setCurCount m2 ["ISA_LOOP", "GS_LOOP", "GS"] 1

/-! ## Cursor resolution (x12context.py lines 249-263) -/

/-- External collaborators of `X12ContextReader`, passed explicitly:
the grammar walker (`walk_tree.walk`, `none` = no match), the map index
(`map_index.get_filename`, last argument is the optional purpose code,
`none` result = no map found) and the map loader (`map_if.load_map_file`). -/
structure Env where
  walk : MapNode → Seg → Option MapNode
  getFilename : Option String → Option String → Option String → Option String → Option String
  loadMap : String → GMap

/-- The control map node at `/ISA_LOOP/ISA`. -/
def isaCtlNode : MapNode :=
  ⟨["ISA_LOOP", "ISA"], true, true⟩

/-- The control map node at `/ISA_LOOP/GS_LOOP/GS`. -/
def gsMapNode : MapNode :=
  ⟨["ISA_LOOP", "GS_LOOP", "GS"], true, true⟩

/-- The map node at `/ISA_LOOP/GS_LOOP/ST_LOOP/HEADER/BHT`. -/
def bhtMapNode : MapNode :=
  ⟨["ISA_LOOP", "GS_LOOP", "ST_LOOP", "HEADER", "BHT"], true, true⟩

/-- Lines 249-261 of `iter_segments`: `ISA` and `GS` are resolved by direct
path lookup against the control map; every other tag is delegated to the
walker (`none` = walker reported no match). -/
def resolveSeg (env : Env) (cursor : MapNode) (seg : Seg) : Option MapNode :=
  if seg.segId = "ISA" then some isaCtlNode
  else if seg.segId = "GS" then some gsMapNode
  else env.walk cursor seg

/-! ## x12xml_idtagqual._get_node_id -/

/-- First-child shape of a segment grammar definition, as queried by
`_get_node_id`: an element (data type, valid codes) or a composite whose
subelements each carry (data type, valid codes). -/
inductive EleKind where
  | element (dataType : String) (validCodes : List String)
  | composite (subs : List (String × List String))
deriving DecidableEq, Repr

/-- A segment grammar definition as queried by `_get_node_id`: id,
position, children. -/
structure SegIfNode where
  id : String
  pos : Nat
  children : List EleKind
deriving DecidableEq, Repr

/-- The enclosing loop as queried by `_get_node_id`: `pos_map`, the sibling
segment definitions sharing each position. -/
structure LoopIfNode where
  posMap : Nat → List SegIfNode

/-- Python `id_val in valid_codes` where `id_val` may be `None`
(membership of `None` is false). -/
def optMem (o : Option String) (codes : List String) : Bool :=
  match o with
  | some v => codes.contains v
  | none => false

/-- `x12xml_idtagqual._get_node_id`: qualify the segment id with the value
of its first element when more than one sibling definition shares the
position and the first child is an `ID`-typed element (or a composite whose
first subelement is `ID`-typed) whose non-empty valid-code list contains
that value.  Index errors of `children[0]` accesses are explicit. -/
def getNodeId (segNode : SegIfNode) (parent : LoopIfNode) (segData : Seg) :
    Except PyErr String :=
  if (parent.posMap segNode.pos).length > 1 then
    let idVal := segData.getValue "01"
    match segNode.children.head? with
    | none => .error PyErr.indexErr
    | some (.element dt codes) =>
      if dt = "ID" ∧ codes.length > 0 ∧ optMem idVal codes then
        .ok (segNode.id ++ "_" ++ idVal.getD "")
      else
        .ok segNode.id
    | some (.composite subs) =>
      match subs.head? with
      | none => .error PyErr.indexErr
      | some (dt, codes) =>
        if dt = "ID" ∧ codes.length > 0 ∧ optMem idVal codes then
          .ok (segNode.id ++ "_" ++ idVal.getD "")
        else
          .ok segNode.id
  else
    .ok segNode.id

/-- The qualification condition on the first child, stated as in the
specification of `_get_node_id` (used to compare the code's behaviour with
the claimed behaviour). -/
def firstChildQual (segNode : SegIfNode) (idVal : Option String) : Bool :=
  match segNode.children.head? with
  | some (.element dt codes) =>
    decide (dt = "ID") && decide (codes.length > 0) && optMem idVal codes
  | some (.composite subs) =>
    match subs.head? with
    | some (dt, codes) =>
      decide (dt = "ID") && decide (codes.length > 0) && optMem idVal codes
    | none => false
  | none => false

/-! ## Document Node tree (`X12DataNode` and subclasses) -/

/-- A captured document node: either a loop instance
(`X12LoopDataNode`, holding its grammar node and children) or a segment
(`X12SegmentDataNode`, holding its grammar node, the segment payload, the
`start_loops`/`end_loops` bracket lists, and the allocation indices of the
two list objects — `(0, 1)` are the two shared default list objects of the
constructor's default arguments, fresh pairs are `≥ 2`). -/
inductive DataNode where
  | loop (node : MapNode) (children : List DataNode)
  | seg (node : MapNode) (data : Seg) (startLoops endLoops : List MapNode)
      (startRef endRef : Nat)
deriving Repr

/-- Is this a loop document node? -/
def isLoopNode : DataNode → Bool
  | .loop _ _ => true
  | .seg _ _ _ _ _ _ => false

/-- The grammar node of a document node. -/
def nodeMapOf : DataNode → MapNode
  | .loop m _ => m
  | .seg m _ _ _ _ _ => m

/-- Event stream items of `iterate_loop_segments` (the dictionaries'
`type`/`id` content). -/
inductive LoopEvent where
  | loopStart (id : String)
  | segEv (id : String)
  | loopEnd (id : String)
deriving DecidableEq, Repr

/-- `iterate_loop_segments`: a loop node brackets its children's events with
`loop_start`/`loop_end`; a segment node emits `loop_start` events for its
`start_loops`, the segment itself, then `loop_end` events for its
`end_loops`. -/
def iterateLoopSegments : DataNode → List LoopEvent
  | .loop m cs =>
    [LoopEvent.loopStart m.id]
      ++ (cs.attach.map (fun c => iterateLoopSegments c.1)).flatten
      ++ [LoopEvent.loopEnd m.id]
  | .seg m _ sl el _ _ =>
    sl.map (fun l => LoopEvent.loopStart l.id)
      ++ [LoopEvent.segEv m.id]
      ++ el.map (fun l => LoopEvent.loopEnd l.id)
termination_by n => sizeOf n
decreasing_by
  simp_wf
  have h := List.sizeOf_lt_of_mem c.2
  omega

/-- Stack-based well-nesting check: every `loop_end` must close the
innermost open `loop_start` with the same id, and everything opened must be
closed. -/
def checkNest : List LoopEvent → List String → Bool
  | [], [] => true
  | [], _ :: _ => false
  | .loopStart i :: rest, stk => checkNest rest (i :: stk)
  | .segEv _ :: rest, stk => checkNest rest stk
  | .loopEnd i :: rest, j :: stk => decide (i = j) && checkNest rest stk
  | .loopEnd _ :: _, [] => false

/-- An event list is well-nested when the bracket check succeeds starting
from an empty stack. -/
def wellNested (evs : List LoopEvent) : Bool :=
  checkNest evs []

/-- All segment nodes of a captured tree carry empty bracket lists (true of
every tree the reader materializes: `_add_segment` always constructs
segment nodes through the default arguments). -/
def cleanNode : DataNode → Bool
  | .loop _ cs => (cs.attach.map (fun c => cleanNode c.1)).all id
  | .seg _ _ sl el _ _ => sl.isEmpty && el.isEmpty
termination_by n => sizeOf n
decreasing_by
  simp_wf
  have h := List.sizeOf_lt_of_mem c.2
  omega

/-! ## The tree cursor

The reader's `cur_tree`/`cur_data_node` pair is a tree under construction
together with a cursor on the most recently added node.  Because
`_add_segment` only ever appends as the last child and moves either down to
the appended node or up to a parent, the cursor always lies on the
rightmost spine.  A `Spine` is that rightmost path: for every open loop
level its grammar node and its already-completed children (in order), plus
(when the cursor is a segment leaf) the leaf's grammar node and payload. -/
structure Spine where
  levels : List (MapNode × List DataNode)
  leaf : Option (MapNode × Seg)
deriving Repr

/-- Split a list into its initial part and last element. -/
def splitLast {α : Type} : List α → Option (List α × α)
  | [] => none
  | [a] => some ([], a)
  | a :: b :: rest =>
    match splitLast (b :: rest) with
    | none => none
    | some (xs, l) => some (a :: xs, l)

/-- Append a completed child to the innermost open level. -/
def appendToLast : List (MapNode × List DataNode) → DataNode → List (MapNode × List DataNode)
  | [], _ => []
  | [(m, cs)], d => [(m, cs ++ [d])]
  | x :: y :: rest, d => x :: appendToLast (y :: rest) d

/-- The grammar node of the cursor (`cur_data_node.x12_map_node`). -/
def cursorMap (sp : Spine) : MapNode :=
  match sp.leaf with
  | some (m, _) => m
  | none =>
    match splitLast sp.levels with
    | some (_, (m, _)) => m
    | none => loopNode []

/-- The cursor's path (`cur_data_node.cur_path` as an id list). -/
def cursorPath (sp : Spine) : List String :=
  (cursorMap sp).path

/-- A segment leaf as `_add_segment` constructs it: default arguments, so
empty bracket lists referencing the two shared default list objects. -/
def leafDataNode (m : MapNode) (sd : Seg) : DataNode :=
  DataNode.seg m sd [] [] 0 1

/-- One `cur_data_node = cur_data_node.parent` step.  From a segment leaf
the cursor moves to its enclosing open level (the leaf becomes a completed
child); from the innermost open level the cursor moves one level out
(the level becomes a completed loop child).  `none` when the cursor is the
tree root, whose `parent` is Python `None` (the subsequent attribute access
raises `AttributeError`). -/
def popOne (sp : Spine) : Option Spine :=
  match sp.leaf with
  | some (m, sd) => some ⟨appendToLast sp.levels (leafDataNode m sd), none⟩
  | none =>
    match splitLast sp.levels with
    | none => none
    | some ([], _) => none
    | some (x :: xs, (m, cs)) =>
      some ⟨appendToLast (x :: xs) (DataNode.loop m cs), none⟩

/-- The `EngineError` message of a failed loop pop
(`'Loop pop: %s != %s'`). -/
def popErrMsg (curId expId : String) : String :=
  "Loop pop: " ++ curId ++ " != " ++ expId

/-- The pop phase of `_add_segment`: for each loop reported as exited, move
the cursor to its parent and require the id there to match; a mismatch
raises `EngineError`, popping past the root raises `AttributeError`. -/
def doPops (sp : Spine) : List MapNode → Except PyErr Spine
  | [] => .ok sp
  | l :: rest =>
    match popOne sp with
    | none => .error PyErr.attr
    | some sp1 =>
      if (cursorMap sp1).id = l.id then doPops sp1 rest
      else .error (PyErr.engine (popErrMsg (cursorMap sp1).id l.id))

/-- The push phase of `_add_segment` (`_add_loop_node` per entered loop):
append a fresh loop child at the cursor and descend into it.  When the
cursor is a segment leaf, Python appends to a `children` attribute the
segment node does not have (`AttributeError`). -/
def doPushes (sp : Spine) : List MapNode → Except PyErr Spine
  | [] => .ok sp
  | l :: rest =>
    match sp.leaf with
    | some _ => .error PyErr.attr
    | none => doPushes ⟨sp.levels ++ [(l, [])], none⟩ rest

/-- Append the new segment leaf at the cursor and make it the cursor.  When
the cursor is already a segment leaf, Python appends to the missing
`children` attribute (`AttributeError`). -/
def attachLeaf (sp : Spine) (m : MapNode) (sd : Seg) : Except PyErr Spine :=
  match sp.leaf with
  | some _ => .error PyErr.attr
  | none => .ok ⟨sp.levels, some (m, sd)⟩

/-- `X12ContextReader._add_segment`: find the position for the new segment
from the cursor, popping/pushing loop levels when the enclosing-loop path
changed, then attach the segment as the new cursor. -/
def addSegment (sp : Spine) (segNode : MapNode) (sd : Seg) : Except PyErr Spine := do
  if segNode.isSeg = false then
    .error (PyErr.engine "Node must be a segment")
  else
    let parentX := popToParentLoop segNode
    let newPath := parentX.path
    let lastPath := cursorPath sp
    let sp1 ←
      if lastPath ≠ newPath then do
        let sp1 ← doPops sp (getPopLoops (cursorMap sp) segNode)
        doPushes sp1 (getPushLoops (cursorMap sp1) segNode)
      else
        .ok sp
    attachLeaf sp1 segNode sd

/-- Close the spine into the completed tree it denotes (`none` only for a
spine with no levels, which the reader never constructs). -/
def finalizeSpine (sp : Spine) : Option DataNode :=
  let lv :=
    match sp.leaf with
    | some (m, sd) => appendToLast sp.levels (leafDataNode m sd)
    | none => sp.levels
  lv.foldr (fun x acc => some (DataNode.loop x.1 (x.2 ++ acc.toList))) none

/-! ## The context reader state and per-segment algorithm -/

/-- Error-handler notifications issued by `iter_segments` itself (the
`errh`/Error Sink calls in lines 264-328). -/
inductive ErrEvent where
  | addIsaLoop
  | closeIsaLoop
  | addGsLoop
  | closeGsLoop
  | addStLoop
  | closeStLoop
  | addSeg
  | handleErrors
deriving DecidableEq, Repr

/-- What `cur_data_node` currently references: nothing yet, the cursor of
the buffered tree, or a free-standing flat segment node (of which only the
grammar node is consulted afterwards). -/
inductive CurD where
  | cdNone
  | cdInTree
  | cdFlat (m : MapNode)
deriving DecidableEq, Repr

/-- The mutable state of one `iter_segments` run: the grammar cursor
(`self.x12_map_node`), the active map file name (`self.map_file`), the
loaded transaction map (local `cur_map`, `none` = not yet bound), the
control map's counter table (the counters `_apply_loop_count` collects
before the first swap), the function-local envelope identifiers
(`icvn`/`fic`/`vriic`/`tspc`; outer `none` = unbound local), the buffered
tree and data-node cursor, the next fresh list-allocation index, and two
instrumentation counters (number of `load_map_file` calls, number of
requested-loop first-segment detections). -/
structure RState where
  cursor : MapNode
  mapFile : String
  curMap : Option GMap
  ctlCounts : List (List String × Nat)
  icvn : Option (Option String)
  fic : Option (Option String)
  vriic : Option (Option String)
  tspc : Option (Option String)
  curTree : Option Spine
  curData : CurD
  nextRef : Nat
  loads : Nat
  dets : Nat
deriving Repr

/-- The counter table of the map the grammar cursor currently lives in
(the table `orig_node.get_counts_list` collects — modelled from the spec:
"the reader walks [the previous grammar], collecting `(path,
current_count)` for every loop node"; `get_counts_list` is in `map_if`,
which is not under `src/`). -/
def curCounts (st : RState) : List (List String × Nat) :=
  match st.curMap with
  | some m => m.counts
  | none => st.ctlCounts

/-- Lift the `Option` failure of a map-counter operation into the step's
error monad. -/
def expectSome {α : Type} (o : Option α) : Except PyErr α :=
  match o with
  | some a => .ok a
  | none => .error PyErr.attr

/-- Lines 264-328 of `iter_segments`: the per-tag side effects executed
after a successful resolution — envelope notifications, recording of
envelope identifiers, and the `GS`/`BHT` map-switch logic.  Returns the
updated state and the error-sink notifications issued. -/
def sideEffects (env : Env) (st : RState) (seg : Seg) :
    Except PyErr (RState × List ErrEvent) :=
  if seg.segId = "ISA" then
    .ok ({ st with icvn := some (seg.getValue "ISA12") },
      [ErrEvent.addIsaLoop, ErrEvent.handleErrors])
  else if seg.segId = "IEA" then
    .ok (st, [ErrEvent.handleErrors, ErrEvent.closeIsaLoop])
  else if seg.segId = "GS" then
    -- Python binds the locals `fic`/`vriic` first; nothing reads them before
    -- the end of the branch, so their update is folded into the final states.
    match st.icvn with
    | none => .error (PyErr.nameErr "icvn")
    | some icv => do
      let mfNew := env.getFilename icv (seg.getValue "GS08") (seg.getValue "GS01") none
      let st1 ←
        if mfNew ≠ some st.mapFile then
          match mfNew with
          | none => .error (PyErr.engine "Map not found")
          | some f => do
            let m1 ← expectSome (applyLoopCount (curCounts st) (env.loadMap f))
            let m2 ← expectSome (resetIsaCounts m1)
            .ok { st with mapFile := f, curMap := some m2, loads := st.loads + 1 }
        else
          .ok st
      match st1.curMap with
      | none => .error (PyErr.nameErr "cur_map")
      | some m => do
        let m3 ← expectSome (resetGsCounts m)
        .ok ({ st1 with
          curMap := some m3
          cursor := gsMapNode
          fic := some (seg.getValue "GS01")
          vriic := some (seg.getValue "GS08") },
          [ErrEvent.addGsLoop, ErrEvent.handleErrors])
  else if seg.segId = "BHT" then do
    let st1 ←
      match st.vriic with
      | none => .error (PyErr.nameErr "vriic")
      | some vr =>
        if vr = some "004010X094" ∨ vr = some "004010X094A1" then
          let tspcv := seg.getValue "BHT02"
          match st.icvn, st.fic with
          | some icv, some fi => do
            let mfNew := env.getFilename icv vr fi tspcv
            if mfNew ≠ some st.mapFile then
              match mfNew with
              | none => .error (PyErr.engine "Map not found")
              | some f => do
                let m0 := env.loadMap f
                let m1 ← expectSome (applyLoopCount (curCounts st) m0)
                .ok { st with
                  tspc := some tspcv
                  mapFile := f
                  curMap := some m1
                  loads := st.loads + 1
                  cursor := bhtMapNode }
            else
              .ok { st with tspc := some tspcv }
          | _, _ => .error (PyErr.nameErr "icvn")
        else
          .ok st
    .ok (st1, [ErrEvent.addSeg, ErrEvent.handleErrors])
  else if seg.segId = "GE" then
    .ok (st, [ErrEvent.handleErrors, ErrEvent.closeGsLoop])
  else if seg.segId = "ST" then
    .ok (st, [ErrEvent.addStLoop, ErrEvent.handleErrors])
  else if seg.segId = "SE" then
    .ok (st, [ErrEvent.handleErrors, ErrEvent.closeStLoop])
  else
    .ok (st, [ErrEvent.addSeg, ErrEvent.handleErrors])

/-- The completed tree yielded when the buffered tree is closed out. -/
def treeYield (t : Option Spine) : List DataNode :=
  match t with
  | some sp => (finalizeSpine sp).toList
  | none => []

/-- The grammar node `cur_data_node.x12_map_node` of the previous data
node, when one exists. -/
def prevMapNode (st : RState) : Option MapNode :=
  match st.curData with
  | CurD.cdNone => none
  | CurD.cdInTree => st.curTree.map cursorMap
  | CurD.cdFlat m => some m

/-- Lines 347-361 of `iter_segments`: outside the requested scope (or in
unscoped mode), close out any buffered tree, then yield the segment as a
flat node — with computed `start_loops`/`end_loops` lists (two freshly
allocated list objects) when a previous data node exists, and with the
constructor's default arguments (the two shared default list objects,
allocation indices 0 and 1) otherwise. -/
def flatYield (st : RState) (seg : Seg) : RState × List DataNode :=
  let ys := treeYield st.curTree
  match prevMapNode st with
  | some pm =>
    let pushL := getPushLoops pm st.cursor
    let popL := getPopLoops pm st.cursor
    let nd := DataNode.seg st.cursor seg pushL popL st.nextRef (st.nextRef + 1)
    ({ st with
        curTree := none
        curData := CurD.cdFlat st.cursor
        nextRef := st.nextRef + 2 }, ys ++ [nd])
  | none =>
    let nd := DataNode.seg st.cursor seg [] [] 0 1
    ({ st with curTree := none, curData := CurD.cdFlat st.cursor }, ys ++ [nd])

/-- Lines 330-361 of `iter_segments`: decide between scoped buffering and
flat yielding for the (already resolved and side-effected) segment. -/
def yieldPhase (lid : Option String) (st : RState) (seg : Seg)
    (evs : List ErrEvent) : Except PyErr (RState × List DataNode × List ErrEvent) :=
  let nodePath := st.cursor.path
  match lid with
  | some l =>
    if l ∈ nodePath then
      -- `node_path[-2]` raises IndexError on a path shorter than 2
      match nodePath.dropLast.getLast? with
      | none => .error PyErr.indexErr
      | some sndLast =>
        if sndLast = l ∧ st.cursor.firstSeg = true then do
          -- loop repeat found: close out the buffered tree, start a new one
          let ys := treeYield st.curTree
          let sp0 : Spine := ⟨[(loopNode st.cursor.path.dropLast, [])], none⟩
          let sp1 ← addSegment sp0 st.cursor seg
          .ok ({ st with
            curTree := some sp1
            curData := CurD.cdInTree
            dets := st.dets + 1 }, ys, evs)
        else
          match st.curData, st.curTree with
          | CurD.cdInTree, some sp => do
            let sp1 ← addSegment sp st.cursor seg
            .ok ({ st with curTree := some sp1 }, [], evs)
          | _, _ =>
            -- `_add_segment` on `None` or on a parentless flat segment node
            .error PyErr.attr
    else
      let (st1, ys) := flatYield st seg
      .ok (st1, ys, evs)
  | none =>
    let (st1, ys) := flatYield st seg
    .ok (st1, ys, evs)

/-- One full iteration of the `for seg in self.src` body of
`iter_segments`: resolve the cursor (restoring it on a walker no-match,
in which case the side-effect block is skipped), then buffer or yield. -/
def stepSeg (env : Env) (lid : Option String) (st : RState) (seg : Seg) :
    Except PyErr (RState × List DataNode × List ErrEvent) := do
  let origNode := st.cursor
  match resolveSeg env st.cursor seg with
  | none => yieldPhase lid { st with cursor := origNode } seg []
  | some n => do
    let (st1, evs) ← sideEffects env { st with cursor := n } seg
    yieldPhase lid st1 seg evs

/-- Run the body over a whole segment stream, concatenating yields and
error-sink notifications. -/
def runSegs (env : Env) (lid : Option String) (segs : List Seg) (st : RState) :
    Except PyErr (RState × List DataNode × List ErrEvent) :=
  match segs with
  | [] => .ok (st, [], [])
  | s :: rest => do
    let (st1, ys1, ev1) ← stepSeg env lid st s
    let (st2, ys2, ev2) ← runSegs env lid rest st1
    .ok (st2, ys1 ++ ys2, ev1 ++ ev2)

/-- The reader state right after `X12ContextReader.__init__`: cursor at the
control map's `/ISA_LOOP/ISA`, the control map file active, no transaction
map loaded yet, all envelope locals unbound, no buffered tree or data node.
`cc` is the control map's counter table. -/
def initState (cc : List (List String × Nat)) : RState :=
  ⟨isaCtlNode, "x12.control.00401.xml", none, cc,
    none, none, none, none, none, CurD.cdNone, 2, 0, 0⟩

/-- `iter_segments(loop_id)` over a finite source: the list of yielded
document nodes.  Note the generator simply ends with the source — a tree
still being buffered when the stream ends is not yielded. -/
def iterSegments (env : Env) (lid : Option String) (segs : List Seg)
    (cc : List (List String × Nat)) : Except PyErr (List DataNode) :=
  match runSegs env lid segs (initState cc) with
  | .ok (_, ys, _) => .ok ys
  | .error e => .error e

/-! ## Derived observations used in the statements -/

/-- Number of completed loop trees among the yielded nodes. -/
def countTrees (ys : List DataNode) : Nat :=
  (ys.filter isLoopNode).length

/-! ## Concrete fixtures

A small transaction grammar for concrete runs: segment `AAA` is the first
segment of loop `B` inside root loop `R`; segment `CCC` sits directly in
`R`.  The walker resolves by tag. -/

/-- Grammar node of segment `AAA`, first segment of loop `B`. -/
def nAAA : MapNode := ⟨["R", "B", "AAA"], true, true⟩

/-- Grammar node of segment `CCC`, directly inside loop `R`. -/
def nCCC : MapNode := ⟨["R", "CCC"], false, true⟩

/-- Environment with a by-tag walker over the fixture grammar, an empty map
index and maps with no counters. -/
def envT : Env :=
  ⟨fun _ s =>
    if s.segId = "AAA" then some nAAA
    else if s.segId = "CCC" then some nCCC
    else none,
   fun _ _ _ _ => none,
   fun f => ⟨f, []⟩⟩

/-- An `AAA` segment. -/
def sA : Seg := ⟨"AAA", []⟩

/-- A `CCC` segment. -/
def sC : Seg := ⟨"CCC", []⟩

/-- The buffered-then-yielded tree for one `AAA` occurrence of loop `B`. -/
def treeB : DataNode :=
  DataNode.loop (loopNode ["R", "B"]) [DataNode.seg nAAA sA [] [] 0 1]

/-- A transaction map whose counters all start at 7 (plus a spare path). -/
def m837 : GMap :=
  ⟨"837.xml", [(["ISA_LOOP"], 7), (["ISA_LOOP", "ISA"], 7),
    (["ISA_LOOP", "GS_LOOP"], 7), (["ISA_LOOP", "GS_LOOP", "GS"], 7), (["X"], 3)]⟩

/-- Environment whose map index resolves `(00401, 004010X096, HC)` to
`837.xml` and whose loader returns `m837` for it. -/
def envG : Env :=
  ⟨fun _ _ => none,
   fun icv vr fi _ =>
    if icv = some "00401" ∧ vr = some "004010X096" ∧ fi = some "HC" then
      some "837.xml"
    else none,
   fun f => if f = "837.xml" then m837 else ⟨f, []⟩⟩

/-- An `ISA` segment carrying interchange control version `00401`. -/
def sISA : Seg := ⟨"ISA", [("ISA12", "00401")]⟩

/-- A `GS` segment with functional id `HC` and version `004010X096`. -/
def sGS : Seg := ⟨"GS", [("GS01", "HC"), ("GS08", "004010X096")]⟩

/-! ## Further fixtures and invariant predicates used by the theorems -/

def stIsa : RState := { initState [] with icvn := some (some "00401") }

def m837isa : GMap :=
  ⟨"837.xml", [(["ISA_LOOP"], 1), (["ISA_LOOP", "ISA"], 1),
    (["ISA_LOOP", "GS_LOOP"], 7), (["ISA_LOOP", "GS_LOOP", "GS"], 7), (["X"], 3)]⟩

def m837reset : GMap :=
  ⟨"837.xml", [(["ISA_LOOP"], 1), (["ISA_LOOP", "ISA"], 1),
    (["ISA_LOOP", "GS_LOOP"], 1), (["ISA_LOOP", "GS_LOOP", "GS"], 1), (["X"], 3)]⟩

def leafS1 : MapNode := ⟨["R", "B", "S1"], false, true⟩

def segS1 : Seg := ⟨"S1", []⟩

def nS2 : MapNode := ⟨["R", "C", "S2"], true, true⟩

def spDesync : Spine :=
  ⟨[(loopNode ["R"], []), (loopNode ["R", "X"], [])], some (leafS1, segS1)⟩

def spDesync2 : Spine :=
  ⟨[(loopNode ["R"], []), (loopNode ["R", "X"], [leafDataNode leafS1 segS1])], none⟩

def spineOk : Option Spine → Bool
  | none => true
  | some sp => !sp.levels.isEmpty

def stC3 : RState :=
  ⟨nCCC, "x12.control.00401.xml", none, [], none, none, none, none, none,
    CurD.cdFlat nCCC, 4, 0, 1⟩

def ysC3 : List DataNode :=
  [treeB, DataNode.seg nCCC sC [] [loopNode ["R", "B"]] 2 3]

def yieldRefsOk : DataNode → Bool
  | .loop _ _ => true
  | .seg _ _ sl el r1 r2 =>
    (decide (r1 = 0) && decide (r2 = 1) && sl.isEmpty && el.isEmpty) ||
    (decide (2 ≤ r1) && decide (r2 = r1 + 1))

def ysC9 : List DataNode :=
  [DataNode.seg nAAA sA [] [] 0 1, DataNode.seg nCCC sC [] [loopNode ["R", "B"]] 2 3]

def stC9 : RState :=
  ⟨nCCC, "x12.control.00401.xml", none, [], none, none, none, none, none,
    CurD.cdFlat nCCC, 4, 0, 0⟩

def cleanSpine : Option Spine → Bool
  | none => true
  | some sp => sp.levels.all (fun x => x.2.all cleanNode)

/-- The flat node constructed at lines 352-361: with a previous data node,
`X12SegmentDataNode(node, seg, None, push_loops, pop_loops)` with two
freshly allocated list objects (indices `r`, `r+1`); without one,
`X12SegmentDataNode(node, seg)` through the default arguments (the two
shared default list objects, indices 0 and 1). -/
def mkFlatNode (pm : Option MapNode) (cur : MapNode) (s : Seg) (r : Nat) : DataNode :=
  match pm with
  | some m => DataNode.seg cur s (getPushLoops m cur) (getPopLoops m cur) r (r + 1)
  | none => DataNode.seg cur s [] [] 0 1

/-- Replace the error-sink notification component of a step result,
keeping the state and the yielded nodes. -/
def withEvents (r : Except PyErr (RState × List DataNode × List ErrEvent))
    (evs : List ErrEvent) : Except PyErr (RState × List DataNode × List ErrEvent) :=
  match r with
  | .ok (a, b, _) => .ok (a, b, evs)
  | .error e => .error e

/-- The error-sink notifications the side-effect block issues for a
successfully resolved non-`ISA`/`GS`/`BHT` segment, by tag. -/
def defaultSideEvents (tag : String) : List ErrEvent :=
  if tag = "IEA" then [ErrEvent.handleErrors, ErrEvent.closeIsaLoop]
  else if tag = "GE" then [ErrEvent.handleErrors, ErrEvent.closeGsLoop]
  else if tag = "ST" then [ErrEvent.addStLoop, ErrEvent.handleErrors]
  else if tag = "SE" then [ErrEvent.handleErrors, ErrEvent.closeStLoop]
  else [ErrEvent.addSeg, ErrEvent.handleErrors]

/-! ## Theorems -/

/-- C10: `_get_node_id` returns the segment id suffixed with `'_'` plus the
segment's first element value exactly when more than one sibling definition
shares the segment's position and the first child is an `ID`-typed element
(or a composite whose first subelement is `ID`-typed) with a non-empty
valid-code list containing that value; in every other case it returns the
bare id.  (Hypotheses: the grammar accesses `children[0]` and, for a
composite, `children[0].children[0]` succeed.) -/
theorem c10_get_node_id_qualification (sn : SegIfNode) (p : LoopIfNode) (sd : Seg)
    (h1 : (p.posMap sn.pos).length > 1 → sn.children ≠ [])
    (h2 : ∀ subs, sn.children.head? = some (EleKind.composite subs) → subs ≠ []) :
    getNodeId sn p sd =
      .ok (if (p.posMap sn.pos).length > 1 ∧
            firstChildQual sn (sd.getValue "01") = true
          then sn.id ++ "_" ++ (sd.getValue "01").getD ""
          else sn.id) := by
  unfold getNodeId firstChildQual
  by_cases hlen : (p.posMap sn.pos).length > 1
  · cases hch : sn.children with
    | nil => exact absurd hch (h1 hlen)
    | cons c rest =>
      cases c with
      | element dt codes =>
        simp only [hch, List.head?_cons, if_pos hlen]
        by_cases hq : dt = "ID" ∧ codes.length > 0 ∧ optMem (sd.getValue "01") codes = true
        · rw [if_pos hq, if_pos]
          exact ⟨hlen, by simp [hq.1, hq.2.1, hq.2.2]⟩
        · rw [if_neg hq, if_neg]
          rintro ⟨-, hb⟩
          apply hq
          simp only [Bool.and_eq_true, decide_eq_true_eq] at hb
          exact ⟨hb.1.1, hb.1.2, hb.2⟩
      | composite subs =>
        have hsubs : subs ≠ [] := h2 subs (by rw [hch]; rfl)
        cases hs : subs with
        | nil => exact absurd hs hsubs
        | cons sc src =>
          obtain ⟨dt, codes⟩ := sc
          simp only [hch, hs, List.head?_cons, if_pos hlen]
          by_cases hq : dt = "ID" ∧ codes.length > 0 ∧ optMem (sd.getValue "01") codes = true
          · rw [if_pos hq, if_pos]
            exact ⟨hlen, by simp [hq.1, hq.2.1, hq.2.2]⟩
          · rw [if_neg hq, if_neg]
            rintro ⟨-, hb⟩
            apply hq
            simp only [Bool.and_eq_true, decide_eq_true_eq] at hb
            exact ⟨hb.1.1, hb.1.2, hb.2⟩
  · rw [if_neg hlen, if_neg]
    rintro ⟨hl, -⟩
    exact hlen hl

/-- Witness for C10 at a qualified and an unqualified concrete input. -/
theorem c10_witness :
    getNodeId ⟨"NM1", 3, [EleKind.element "ID" ["41", "40"]]⟩
        ⟨fun _ => [⟨"NM1", 3, []⟩, ⟨"NM1", 3, []⟩]⟩ ⟨"NM1", [("01", "41")]⟩ =
      .ok "NM1_41" := by
  have h := c10_get_node_id_qualification
    ⟨"NM1", 3, [EleKind.element "ID" ["41", "40"]]⟩
    ⟨fun _ => [⟨"NM1", 3, []⟩, ⟨"NM1", 3, []⟩]⟩ ⟨"NM1", [("01", "41")]⟩
    (fun _ => by decide) (fun subs hs => by simp at hs)
  rw [h]
  rfl

/-- C2 counterexample: an `ST` segment is not resolved by control-grammar
path lookup — it is delegated to the walker, whose answer (here a node that
does not exist in any control grammar) becomes the cursor. -/
theorem c2_counterexample_st_delegated_to_walker :
    resolveSeg
      ⟨fun _ _ => some ⟨["NOT_IN_CONTROL_GRAMMAR"], false, true⟩,
        fun _ _ _ _ => none, fun f => ⟨f, []⟩⟩
      isaCtlNode ⟨"ST", []⟩ =
      some ⟨["NOT_IN_CONTROL_GRAMMAR"], false, true⟩ := rfl

/-- C2 amended: only `ISA` and `GS` are resolved by direct path lookup
against the control grammar; every other tag — in particular `IEA`, `GE`,
`ST` and `SE` — is delegated to the Grammar Matcher (walker). -/
theorem c2_amended_only_isa_gs_direct_lookup (env : Env) (c : MapNode) (seg : Seg) :
    (seg.segId = "IEA" ∨ seg.segId = "GE" ∨ seg.segId = "ST" ∨ seg.segId = "SE" →
      resolveSeg env c seg = env.walk c seg)
    ∧ (seg.segId = "ISA" → resolveSeg env c seg = some isaCtlNode)
    ∧ (seg.segId = "GS" → resolveSeg env c seg = some gsMapNode) := by
  refine ⟨fun h => ?_, fun h => ?_, fun h => ?_⟩
  · have hISA : seg.segId ≠ "ISA" := by rcases h with h | h | h | h <;> simp [h]
    have hGS : seg.segId ≠ "GS" := by rcases h with h | h | h | h <;> simp [h]
    simp [resolveSeg, hISA, hGS]
  · simp [resolveSeg, h]
  · have hISA : seg.segId ≠ "ISA" := by simp [h]
    simp [resolveSeg, hISA, h]

/-- Witness for the amended C2 at a concrete `SE` segment. -/
theorem c2_amended_witness :
    resolveSeg envT isaCtlNode ⟨"SE", []⟩ = envT.walk isaCtlNode ⟨"SE", []⟩ :=
  (c2_amended_only_isa_gs_direct_lookup envT isaCtlNode ⟨"SE", []⟩).1
    (Or.inr (Or.inr (Or.inr rfl)))

/-- Every node produced by closing a spine is a loop node. -/
theorem finalizeSpine_isLoop (sp : Spine) (d : DataNode)
    (h : finalizeSpine sp = some d) : isLoopNode d = true := by
  unfold finalizeSpine at h
  generalize hlv : (match sp.leaf with
    | some (m, sd) => appendToLast sp.levels (leafDataNode m sd)
    | none => sp.levels) = lv at h
  clear hlv
  induction lv with
  | nil => simp at h
  | cons x xs _ =>
    simp only [List.foldr_cons] at h
    cases h
    rfl

/-- Every yielded buffered tree is a loop node. -/
theorem treeYield_isLoop (t : Option Spine) (n : DataNode)
    (h : n ∈ treeYield t) : isLoopNode n = true := by
  cases t with
  | none => simp [treeYield] at h
  | some sp =>
    simp only [treeYield] at h
    cases hf : finalizeSpine sp with
    | none => rw [hf] at h; simp at h
    | some d =>
      rw [hf] at h
      simp [Option.toList] at h
      rw [h]
      exact finalizeSpine_isLoop sp d hf

/-- For every tag other than `ISA`, `GS` and `BHT`, the side-effect block
leaves the state untouched and only issues its tag's error-sink
notifications. -/
theorem sideEffects_default (env : Env) (st : RState) (seg : Seg)
    (h1 : seg.segId ≠ "ISA") (h2 : seg.segId ≠ "GS") (h3 : seg.segId ≠ "BHT") :
    sideEffects env st seg = .ok (st, defaultSideEvents seg.segId) := by
  by_cases hIEA : seg.segId = "IEA"
  · simp [sideEffects, defaultSideEvents, h1, hIEA]
  · by_cases hGE : seg.segId = "GE"
    · simp [sideEffects, defaultSideEvents, h1, h2, h3, hIEA, hGE]
    · by_cases hST : seg.segId = "ST"
      · simp [sideEffects, defaultSideEvents, h1, h2, h3, hIEA, hGE, hST]
      · by_cases hSE : seg.segId = "SE"
        · simp [sideEffects, defaultSideEvents, h1, h2, h3, hIEA, hGE, hST, hSE]
        · simp [sideEffects, defaultSideEvents, h1, h2, h3, hIEA, hGE, hST, hSE]

/-- The yield phase threads its incoming event list through unchanged: the
resulting state, the yielded nodes and success or failure are all
independent of it. -/
theorem yieldPhase_withEvents (lid : Option String) (st : RState) (seg : Seg)
    (evs : List ErrEvent) :
    yieldPhase lid st seg evs = withEvents (yieldPhase lid st seg []) evs := by
  simp only [yieldPhase]
  cases lid with
  | none => simp [withEvents]
  | some l =>
    simp only
    by_cases hmem : l ∈ st.cursor.path
    · rw [if_pos hmem, if_pos hmem]
      cases hsl : st.cursor.path.dropLast.getLast? with
      | none => simp [withEvents]
      | some sndLast =>
        simp only
        by_cases hdet : sndLast = l ∧ st.cursor.firstSeg = true
        · rw [if_pos hdet, if_pos hdet]
          simp only [bind, Except.bind]
          cases hadd : addSegment ⟨[(loopNode st.cursor.path.dropLast, [])], none⟩
              st.cursor seg with
          | error e => simp [hadd, withEvents]
          | ok sp1 => simp [hadd, withEvents]
        · rw [if_neg hdet, if_neg hdet]
          cases hcd : st.curData with
          | cdInTree =>
            cases hct : st.curTree with
            | none => simp [withEvents]
            | some sp =>
              simp only [bind, Except.bind]
              cases hadd : addSegment sp st.cursor seg with
              | error e => simp [hadd, withEvents]
              | ok sp1 => simp [hadd, withEvents]
          | cdNone => simp [withEvents]
          | cdFlat m =>
            cases hct : st.curTree with
            | none => simp [withEvents]
            | some sp => simp [withEvents]
    · rw [if_neg hmem, if_neg hmem]
      simp [withEvents]

/-- C4: when the walker reports no match for a non-control segment, the
step proceeds (in either mode) exactly as the yield phase at the unchanged
previous cursor with no error-sink notifications of its own — no fatal
error arises from the no-match and nothing error-like enters the sequence:
the step is identical to one whose walker matched the segment at the
previous grammar position except that the reader's own error-sink
notifications for the segment are skipped (same resulting state, same
yielded nodes, same success or failure) — and in unscoped mode the segment
is still yielded as an ordinary flat node built at the previous
position. -/
theorem c4_no_match_cursor_unchanged (env : Env) (st : RState) (seg : Seg)
    (h1 : seg.segId ≠ "ISA") (h2 : seg.segId ≠ "GS")
    (h3 : env.walk st.cursor seg = none) :
    (∀ lid, stepSeg env lid st seg = yieldPhase lid st seg [])
    ∧ (∀ lid (env2 : Env), env2.walk st.cursor seg = some st.cursor →
        seg.segId ≠ "BHT" →
        stepSeg env2 lid st seg =
          withEvents (stepSeg env lid st seg) (defaultSideEvents seg.segId))
    ∧ stepSeg env none st seg =
      .ok ((flatYield st seg).1, (flatYield st seg).2, [])
    ∧ (flatYield st seg).1.cursor = st.cursor
    ∧ ∀ n ∈ (flatYield st seg).2, isLoopNode n = false → nodeMapOf n = st.cursor := by
  have hres : resolveSeg env st.cursor seg = none := by
    simp [resolveSeg, h1, h2, h3]
  refine ⟨?_, ?_, ?_, ?_, ?_⟩
  · intro lid
    simp only [stepSeg, hres]
  · intro lid env2 hw hBHT
    have hres2 : resolveSeg env2 st.cursor seg = some st.cursor := by
      simp [resolveSeg, h1, h2, hw]
    have hstep1 : stepSeg env lid st seg = yieldPhase lid st seg [] := by
      simp only [stepSeg, hres]
    rw [hstep1, ← yieldPhase_withEvents]
    simp only [stepSeg, hres2, bind, Except.bind]
    rw [show ({ st with cursor := st.cursor } : RState) = st from rfl,
      sideEffects_default env2 st seg h1 h2 hBHT]
  · simp [stepSeg, hres, yieldPhase]
  · unfold flatYield
    cases hpm : prevMapNode st <;> simp
  · intro n hn hseg
    unfold flatYield at hn
    cases hpm : prevMapNode st <;> simp [hpm] at hn <;>
      rcases hn with hn | hn
    · exact absurd hn (by
        intro hmem
        have := treeYield_isLoop st.curTree n hmem
        simp [this] at hseg)
    · subst hn; rfl
    · exact absurd hn (by
        intro hmem
        have := treeYield_isLoop st.curTree n hmem
        simp [this] at hseg)
    · subst hn; rfl

/-- Witness for C4: a `ZZZ` segment the walker cannot match, from the
initial state. -/
theorem c4_witness :
    (∀ lid, stepSeg envG lid (initState []) ⟨"ZZZ", []⟩ =
      yieldPhase lid (initState []) ⟨"ZZZ", []⟩ [])
    ∧ (∀ lid (env2 : Env),
        env2.walk (initState []).cursor ⟨"ZZZ", []⟩ = some (initState []).cursor →
        (⟨"ZZZ", []⟩ : Seg).segId ≠ "BHT" →
        stepSeg env2 lid (initState []) ⟨"ZZZ", []⟩ =
          withEvents (stepSeg envG lid (initState []) ⟨"ZZZ", []⟩)
            (defaultSideEvents (⟨"ZZZ", []⟩ : Seg).segId))
    ∧ stepSeg envG none (initState []) ⟨"ZZZ", []⟩ =
      .ok ((flatYield (initState []) ⟨"ZZZ", []⟩).1,
        (flatYield (initState []) ⟨"ZZZ", []⟩).2, [])
    ∧ (flatYield (initState []) ⟨"ZZZ", []⟩).1.cursor = (initState []).cursor
    ∧ ∀ n ∈ (flatYield (initState []) ⟨"ZZZ", []⟩).2,
        isLoopNode n = false → nodeMapOf n = (initState []).cursor :=
  c4_no_match_cursor_unchanged envG (initState []) ⟨"ZZZ", []⟩
    (by decide) (by decide) rfl

/-- Setting a present key makes its count the set value. -/
theorem lookupCount_setAssoc_self (m : List (List String × Nat)) (p : List String)
    (v w : Nat) (h : lookupCount m p = some w) :
    lookupCount (setAssoc m p v) p = some v := by
  induction m with
  | nil => simp [lookupCount] at h
  | cons x rest ih =>
    obtain ⟨q, c⟩ := x
    by_cases hq : q = p
    · subst hq
      simp [setAssoc, lookupCount]
    · simp only [lookupCount, if_neg hq] at h
      simp [setAssoc, lookupCount, hq, ih h]

/-- Setting one key leaves every other key's count unchanged. -/
theorem lookupCount_setAssoc_other (m : List (List String × Nat)) (q p : List String)
    (v : Nat) (h : q ≠ p) :
    lookupCount (setAssoc m q v) p = lookupCount m p := by
  induction m with
  | nil => simp [setAssoc]
  | cons x rest ih =>
    obtain ⟨r, c⟩ := x
    by_cases hr : r = q
    · subst hr
      simp [setAssoc, lookupCount, h]
    · simp [setAssoc, lookupCount, hr, ih]

/-- `set_cur_count` via `getnodebypath` sets the requested path. -/
theorem setCurCount_self (m m' : GMap) (p : List String) (v : Nat)
    (h : setCurCount m p v = some m') :
    lookupCount m'.counts p = some v := by
  unfold setCurCount at h
  split at h
  · cases h
    next hw =>
      obtain ⟨w, hw⟩ := Option.isSome_iff_exists.mp hw
      exact lookupCount_setAssoc_self m.counts p v w hw
  · cases h

/-- `set_cur_count` leaves other paths unchanged. -/
theorem setCurCount_other (m m' : GMap) (q p : List String) (v : Nat)
    (h : setCurCount m q v = some m') (hne : q ≠ p) :
    lookupCount m'.counts p = lookupCount m.counts p := by
  unfold setCurCount at h
  split at h
  · cases h
    exact lookupCount_setAssoc_other m.counts q p v hne
  · cases h

/-- `_apply_loop_count` leaves paths outside the recorded list unchanged. -/
theorem applyLoopCount_notin (ct : List (List String × Nat)) (m m' : GMap)
    (p : List String) (h : applyLoopCount ct m = some m')
    (hp : p ∉ ct.map Prod.fst) :
    lookupCount m'.counts p = lookupCount m.counts p := by
  induction ct generalizing m with
  | nil =>
    simp only [applyLoopCount] at h
    cases h
    rfl
  | cons x rest ih =>
    obtain ⟨q, c⟩ := x
    simp only [applyLoopCount] at h
    cases hset : setCurCount m q c with
    | none => rw [hset] at h; cases h
    | some m1 =>
      rw [hset] at h
      simp only [List.map_cons, List.mem_cons] at hp
      push_neg at hp
      rw [ih m1 h hp.2]
      exact setCurCount_other m m1 q p c hset (fun hqp => hp.1 hqp.symm)

/-- C6: after a grammar swap through `_apply_loop_count`, every loop path
recorded from the old grammar (with its unique paths) keeps its occurrence
count in the new grammar: `count_after_swap(path) = count_before_swap(path)`
for every shared path.  (The collection side `get_counts_list` lives in
`map_if`, outside `src/`, and is modelled from the spec as the old
grammar's `(path, count)` table.) -/
theorem c6_apply_loop_count_preserves_shared_counts
    (ct : List (List String × Nat)) (m m' : GMap) (p : List String) (c : Nat)
    (hnd : (ct.map Prod.fst).Nodup)
    (happ : applyLoopCount ct m = some m')
    (hbefore : lookupCount ct p = some c) :
    lookupCount m'.counts p = some c := by
  induction ct generalizing m with
  | nil => simp [lookupCount] at hbefore
  | cons x rest ih =>
    obtain ⟨q, v⟩ := x
    simp only [applyLoopCount] at happ
    cases hset : setCurCount m q v with
    | none => rw [hset] at happ; cases happ
    | some m1 =>
      rw [hset] at happ
      simp only [List.map_cons, List.nodup_cons] at hnd
      by_cases hqp : q = p
      · subst hqp
        simp only [lookupCount, if_pos rfl, Option.some.injEq] at hbefore
        rw [applyLoopCount_notin rest m1 m' q happ hnd.1, ← hbefore]
        exact setCurCount_self m m1 q v hset
      · simp only [lookupCount, if_neg hqp] at hbefore
        exact ih m1 hnd.2 happ hbefore

/-- Witness for C6: a two-path table applied onto a fresh map. -/
theorem c6_witness :
    lookupCount
      ((applyLoopCount [(["ISA_LOOP"], 4), (["ISA_LOOP", "GS_LOOP"], 2)]
        ⟨"new.xml", [(["ISA_LOOP"], 1), (["ISA_LOOP", "GS_LOOP"], 1)]⟩).getD
          ⟨"", []⟩).counts ["ISA_LOOP", "GS_LOOP"] = some 2 := by
  have h := c6_apply_loop_count_preserves_shared_counts
    [(["ISA_LOOP"], 4), (["ISA_LOOP", "GS_LOOP"], 2)]
    ⟨"new.xml", [(["ISA_LOOP"], 1), (["ISA_LOOP", "GS_LOOP"], 1)]⟩
    ⟨"new.xml", [(["ISA_LOOP"], 4), (["ISA_LOOP", "GS_LOOP"], 2)]⟩
    ["ISA_LOOP", "GS_LOOP"] 2 (by decide) (by decide) (by decide)
  simpa using h

/-- C7: a `GS` segment whose identifiers resolve to a map file different
from the active one triggers exactly one `load_map_file` call, and right
after the swap the interchange counters (`/ISA_LOOP`, `/ISA_LOOP/ISA`) and
the group counters (`/ISA_LOOP/GS_LOOP`, `/ISA_LOOP/GS_LOOP/GS`) of the
newly active map all equal 1. -/
theorem c7_gs_swap_single_load_counters_reset
    (env : Env) (st : RState) (seg : Seg) (icv : Option String) (f : String)
    (m1 m2 m3 : GMap)
    (hGS : seg.segId = "GS")
    (hicv : st.icvn = some icv)
    (hf : env.getFilename icv (seg.getValue "GS08") (seg.getValue "GS01") none = some f)
    (hne : f ≠ st.mapFile)
    (happ : applyLoopCount (curCounts st) (env.loadMap f) = some m1)
    (hisa : resetIsaCounts m1 = some m2)
    (hgs : resetGsCounts m2 = some m3) :
    (sideEffects env st seg).toOption.map
        (fun r => (r.1.loads, r.1.mapFile, r.1.curMap, r.1.cursor, r.2)) =
      some (st.loads + 1, f, some m3, gsMapNode,
        [ErrEvent.addGsLoop, ErrEvent.handleErrors])
    ∧ lookupCount m3.counts ["ISA_LOOP"] = some 1
    ∧ lookupCount m3.counts ["ISA_LOOP", "ISA"] = some 1
    ∧ lookupCount m3.counts ["ISA_LOOP", "GS_LOOP"] = some 1
    ∧ lookupCount m3.counts ["ISA_LOOP", "GS_LOOP", "GS"] = some 1 := by
  obtain ⟨ma, hma, hmb⟩ : ∃ ma, setCurCount m1 ["ISA_LOOP"] 1 = some ma ∧
      setCurCount ma ["ISA_LOOP", "ISA"] 1 = some m2 := by
    unfold resetIsaCounts at hisa
    cases hx : setCurCount m1 ["ISA_LOOP"] 1 with
    | none => rw [hx] at hisa; exact absurd hisa (by simp)
    | some ma => rw [hx] at hisa; exact ⟨ma, rfl, hisa⟩
  obtain ⟨ga, gb, hga, hgb, hgc⟩ : ∃ ga gb,
      setCurCount m2 ["ISA_LOOP", "GS_LOOP"] 0 = some ga ∧
      setCurCount ga ["ISA_LOOP", "GS_LOOP"] 1 = some gb ∧
      setCurCount gb ["ISA_LOOP", "GS_LOOP", "GS"] 1 = some m3 := by
    unfold resetGsCounts at hgs
    split at hgs
    · exact absurd hgs (by simp)
    · rename_i ga hx
      split at hgs
      · exact absurd hgs (by simp)
      · rename_i gb hy
        exact ⟨ga, gb, hx, hy, hgs⟩
  have hIsaLoop : lookupCount m3.counts ["ISA_LOOP"] = some 1 := by
    rw [setCurCount_other gb m3 _ _ _ hgc (by decide),
      setCurCount_other ga gb _ _ _ hgb (by decide),
      setCurCount_other m2 ga _ _ _ hga (by decide),
      setCurCount_other ma m2 _ _ _ hmb (by decide)]
    exact setCurCount_self m1 ma _ _ hma
  have hIsa : lookupCount m3.counts ["ISA_LOOP", "ISA"] = some 1 := by
    rw [setCurCount_other gb m3 _ _ _ hgc (by decide),
      setCurCount_other ga gb _ _ _ hgb (by decide),
      setCurCount_other m2 ga _ _ _ hga (by decide)]
    exact setCurCount_self ma m2 _ _ hmb
  have hGsLoop : lookupCount m3.counts ["ISA_LOOP", "GS_LOOP"] = some 1 := by
    rw [setCurCount_other gb m3 _ _ _ hgc (by decide)]
    exact setCurCount_self ga gb _ _ hgb
  have hGsSeg : lookupCount m3.counts ["ISA_LOOP", "GS_LOOP", "GS"] = some 1 :=
    setCurCount_self gb m3 _ _ hgc
  refine ⟨?_, hIsaLoop, hIsa, hGsLoop, hGsSeg⟩
  simp [sideEffects, hGS, hicv, hf, hne, happ, hisa, hgs, expectSome, bind, Except.bind]
  exact ⟨_, _, rfl, rfl, rfl, rfl, rfl, rfl⟩

/-- Witness for C7: the concrete `GS` swap to `837.xml`. -/
theorem c7_witness :
    (sideEffects envG stIsa sGS).toOption.map
        (fun r => (r.1.loads, r.1.mapFile, r.1.curMap, r.1.cursor, r.2)) =
      some (stIsa.loads + 1, "837.xml", some m837reset, gsMapNode,
        [ErrEvent.addGsLoop, ErrEvent.handleErrors])
    ∧ lookupCount m837reset.counts ["ISA_LOOP"] = some 1
    ∧ lookupCount m837reset.counts ["ISA_LOOP", "ISA"] = some 1
    ∧ lookupCount m837reset.counts ["ISA_LOOP", "GS_LOOP"] = some 1
    ∧ lookupCount m837reset.counts ["ISA_LOOP", "GS_LOOP", "GS"] = some 1 :=
  c7_gs_swap_single_load_counters_reset envG stIsa sGS (some "00401") "837.xml"
    m837 m837isa m837reset rfl rfl rfl (by decide) rfl rfl rfl

/-- Prefix decomposition of the pop phase. -/
theorem doPops_append (sp : Spine) (a b : List MapNode) :
    doPops sp (a ++ b) =
      match doPops sp a with
      | .ok sp1 => doPops sp1 b
      | .error e => .error e := by
  induction a generalizing sp with
  | nil => simp [doPops]
  | cons l rest ih =>
    simp only [List.cons_append, doPops]
    cases popOne sp with
    | none => rfl
    | some sp1 =>
      by_cases h : (cursorMap sp1).id = l.id
      · simp [h, ih]
      · simp [h]

/-- C8: during tree-cursor reconciliation, each pop first moves the cursor
to its parent and then compares ids; as soon as the id at the new cursor
differs from the loop id reported as exited, `_add_segment` raises the
fatal `EngineError` (with the mismatching ids in its message) and no
segment is attached — the mismatch is never absorbed. -/
theorem c8_pop_mismatch_raises_engine_error
    (sp sp1 sp2 : Spine) (segN : MapNode) (sd : Seg)
    (pre post : List MapNode) (l : MapNode)
    (hseg : segN.isSeg = true)
    (hpath : cursorPath sp ≠ (popToParentLoop segN).path)
    (hpops : getPopLoops (cursorMap sp) segN = pre ++ l :: post)
    (hpre : doPops sp pre = .ok sp1)
    (hpop : popOne sp1 = some sp2)
    (hmismatch : (cursorMap sp2).id ≠ l.id) :
    addSegment sp segN sd =
      .error (PyErr.engine (popErrMsg (cursorMap sp2).id l.id)) := by
  have hdo : doPops sp (getPopLoops (cursorMap sp) segN) =
      .error (PyErr.engine (popErrMsg (cursorMap sp2).id l.id)) := by
    rw [hpops, doPops_append, hpre]
    simp [doPops, hpop, hmismatch]
  simp [addSegment, hseg, hpath, hdo, bind, Except.bind]

/-- Witness for C8: a tree whose innermost open loop (`X`) has desynced
from the grammar's exited loop (`B`). -/
theorem c8_witness :
    addSegment spDesync nS2 ⟨"S2", []⟩ =
      .error (PyErr.engine (popErrMsg "X" "B")) :=
  c8_pop_mismatch_raises_engine_error spDesync spDesync spDesync2 nS2 ⟨"S2", []⟩
    [] [] (loopNode ["R", "B"]) rfl (by decide) rfl rfl rfl (by decide)

/-- C1 (failing input): with scope `B`, a stream consisting of a single
first segment of loop `B` triggers the first-segment detection once
(`dets = 1`), leaves the tree buffered at stream end (`curTree` present),
and yields nothing — the trailing tree is dropped, where the claim requires
it to be yielded. -/
theorem c1_scoped_trailing_tree_dropped :
    (runSegs envT (some "B") [sA] (initState [])).toOption.map
        (fun r => (r.2.1.length, r.1.dets, r.1.curTree.isSome)) =
      some (0, 1, true) := rfl

/-- C3 counterexample: with scope `B`, the out-of-scope `CCC` segment is
yielded to the caller as a flat segment node (second element of the
sequence), not skipped — the scoped sequence does not consist only of
completed loop subtrees. -/
theorem c3_counterexample_out_of_scope_segment_yielded :
    iterSegments envT (some "B") [sA, sC] [] =
      .ok [treeB, DataNode.seg nCCC sC [] [loopNode ["R", "B"]] 2 3] := rfl

/-- C5 counterexample: in an actual unscoped run, the second yielded flat
node closes loop `B` without having opened it, so its
`iterate_loop_segments` event stream is not well-nested (the running depth
goes negative at the unmatched `loop_end`). -/
theorem c5_counterexample_flat_node_events_not_well_nested :
    iterSegments envT none [sA, sC] [] =
      .ok [DataNode.seg nAAA sA [] [] 0 1,
        DataNode.seg nCCC sC [] [loopNode ["R", "B"]] 2 3]
    ∧ wellNested
        (iterateLoopSegments (DataNode.seg nCCC sC [] [loopNode ["R", "B"]] 2 3)) =
      false := by
  constructor
  · rfl
  · simp [iterateLoopSegments, wellNested, checkNest]

/-- C9 counterexample: the first out-of-scope node yielded after a scoped
tree is not built through the default arguments: its `end_loops` list is
the non-empty computed pop list (here closing loop `B`) and its two list
objects are freshly allocated (indices 2 and 3, not the shared defaults 0
and 1). -/
theorem c9_counterexample_post_tree_flat_node_computed_lists :
    iterSegments envT (some "B") [sA, sC] [] =
      .ok [treeB, DataNode.seg nCCC sC [] [loopNode ["R", "B"]] 2 3]
    ∧ [loopNode ["R", "B"]] ≠ ([] : List MapNode) ∧ (2, 3) ≠ (0, 1) :=
  ⟨rfl, by decide, by decide⟩

/-- The side-effect block never touches the buffered tree, the data-node
cursor, the detection count or the allocation counter. -/
theorem sideEffects_preserves (env : Env) (st st' : RState) (seg : Seg)
    (evs : List ErrEvent) (h : sideEffects env st seg = .ok (st', evs)) :
    st'.curTree = st.curTree ∧ st'.curData = st.curData ∧
    st'.dets = st.dets ∧ st'.nextRef = st.nextRef := by
  unfold sideEffects at h
  repeat' split at h
  all_goals (try simp only [bind, Except.bind] at h)
  all_goals repeat' split at h
  all_goals (try cases h)
  all_goals simp_all

/-- Appending a completed child keeps the number of open levels. -/
theorem appendToLast_length (ls : List (MapNode × List DataNode)) (d : DataNode) :
    (appendToLast ls d).length = ls.length := by
  induction ls with
  | nil => rfl
  | cons x rest ih =>
    cases rest with
    | nil => rfl
    | cons y rs =>
      simp only [appendToLast, List.length_cons] at ih ⊢
      omega

/-- A parent step keeps at least one open level. -/
theorem popOne_levels (sp sp' : Spine) (h : popOne sp = some sp')
    (hne : sp.levels ≠ []) : sp'.levels ≠ [] := by
  unfold popOne at h
  split at h
  · cases h
    simpa [← List.length_pos_iff_ne_nil, appendToLast_length] using
      List.length_pos_iff_ne_nil.mpr hne
  · split at h
    · cases h
    · cases h
    · rename_i x xs m cs heq
      cases h
      simp [← List.length_pos_iff_ne_nil, appendToLast_length]

/-- The pop phase keeps at least one open level. -/
theorem doPops_levels (pops : List MapNode) (sp sp' : Spine)
    (h : doPops sp pops = .ok sp') (hne : sp.levels ≠ []) : sp'.levels ≠ [] := by
  induction pops generalizing sp with
  | nil =>
    simp only [doPops] at h
    cases h
    exact hne
  | cons l rest ih =>
    simp only [doPops] at h
    cases hp : popOne sp with
    | none => simp only [hp] at h; exact (Except.noConfusion h)
    | some sp1 =>
      simp only [hp] at h
      by_cases hid : (cursorMap sp1).id = l.id
      · rw [if_pos hid] at h
        exact ih sp1 h (popOne_levels sp sp1 hp hne)
      · rw [if_neg hid] at h
        cases h

/-- The push phase keeps at least one open level. -/
theorem doPushes_levels (pushes : List MapNode) (sp sp' : Spine)
    (h : doPushes sp pushes = .ok sp') (hne : sp.levels ≠ []) : sp'.levels ≠ [] := by
  induction pushes generalizing sp with
  | nil =>
    simp only [doPushes] at h
    cases h
    exact hne
  | cons l rest ih =>
    simp only [doPushes] at h
    split at h
    · cases h
    · exact ih _ h (by simp)

/-- Attaching the new leaf keeps the open levels. -/
theorem attachLeaf_levels (sp sp' : Spine) (m : MapNode) (sd : Seg)
    (h : attachLeaf sp m sd = .ok sp') : sp'.levels = sp.levels := by
  unfold attachLeaf at h
  split at h
  · cases h
  · cases h
    rfl

/-- `_add_segment` keeps at least one open level. -/
theorem addSegment_levels (sp sp' : Spine) (segN : MapNode) (sd : Seg)
    (h : addSegment sp segN sd = .ok sp') (hne : sp.levels ≠ []) :
    sp'.levels ≠ [] := by
  unfold addSegment at h
  split at h
  · cases h
  · simp only [bind, Except.bind] at h
    split at h
    · rename_i hpath
      cases hpop : doPops sp (getPopLoops (cursorMap sp) segN) with
      | error e => rw [hpop] at h; simp at h
      | ok sp1 =>
        rw [hpop] at h
        simp only at h
        cases hpush : doPushes sp1 (getPushLoops (cursorMap sp1) segN) with
        | error e => rw [hpush] at h; simp at h
        | ok sp2 =>
          rw [hpush] at h
          simp only at h
          have h1 := doPops_levels _ sp sp1 hpop hne
          have h2 := doPushes_levels _ sp1 sp2 hpush h1
          rw [attachLeaf_levels sp2 sp' segN sd h]
          exact h2
    · rw [attachLeaf_levels sp sp' segN sd h]
      exact hne

/-- Appending a completed child never empties the open levels. -/
theorem appendToLast_ne_nil (ls : List (MapNode × List DataNode)) (d : DataNode)
    (h : ls ≠ []) : appendToLast ls d ≠ [] := by
  intro hnil
  apply h
  have hl := appendToLast_length ls d
  rw [hnil] at hl
  exact List.length_eq_zero.mp hl.symm

/-- A spine with an open level closes into a tree. -/
theorem finalizeSpine_isSome (sp : Spine) (hne : sp.levels ≠ []) :
    (finalizeSpine sp).isSome = true := by
  obtain ⟨levels, leaf⟩ := sp
  simp only [finalizeSpine]
  cases leaf with
  | none =>
    cases levels with
    | nil => exact absurd rfl hne
    | cons x xs => simp
  | some p =>
    obtain ⟨m, sd⟩ := p
    simp only
    cases hA : appendToLast levels (leafDataNode m sd) with
    | nil => exact absurd hA (appendToLast_ne_nil levels (leafDataNode m sd) hne)
    | cons x xs => simp [hA]

/-- Closing out a buffered tree yields exactly one completed loop tree. -/
theorem treeYield_count (t : Option Spine) (hok : spineOk t = true) :
    countTrees (treeYield t) = t.isSome.toNat := by
  cases t with
  | none => rfl
  | some sp =>
    have hne : sp.levels ≠ [] := by
      simpa [spineOk, List.isEmpty_iff] using hok
    have hs := finalizeSpine_isSome sp hne
    cases hf : finalizeSpine sp with
    | none => rw [hf] at hs; cases hs
    | some d =>
      simp only [treeYield, hf, Option.toList, countTrees, List.filter,
        finalizeSpine_isLoop sp d hf]
      rfl

/-- `countTrees` is additive. -/
theorem countTrees_append (a b : List DataNode) :
    countTrees (a ++ b) = countTrees a + countTrees b := by
  simp [countTrees, List.filter_append]

/-- A flat segment node never counts as a tree. -/
theorem countTrees_flat (a : List DataNode) (m : MapNode) (sd : Seg)
    (sl el : List MapNode) (r1 r2 : Nat) :
    countTrees (a ++ [DataNode.seg m sd sl el r1 r2]) = countTrees a := by
  simp [countTrees_append, countTrees, isLoopNode]

/-- The scoped yield phase: the buffered tree stays a real tree, the number
of trees yielded plus the still-buffered tree balances the first-segment
detections, and every flat node yielded lies outside the requested loop. -/
theorem yieldPhase_scoped_spec (l : String) (st1 st2 : RState) (seg : Seg)
    (evs evs2 : List ErrEvent) (ys : List DataNode)
    (h : yieldPhase (some l) st1 seg evs = .ok (st2, ys, evs2))
    (hok : spineOk st1.curTree = true) :
    spineOk st2.curTree = true
    ∧ countTrees ys + st2.curTree.isSome.toNat + st1.dets
        = st1.curTree.isSome.toNat + st2.dets
    ∧ ∀ n ∈ ys, isLoopNode n = false → l ∉ (nodeMapOf n).path := by
  simp only [yieldPhase] at h
  by_cases hmem : l ∈ st1.cursor.path
  · rw [if_pos hmem] at h
    cases hsl : st1.cursor.path.dropLast.getLast? with
    | none => simp only [hsl] at h; exact (Except.noConfusion h)
    | some sndLast =>
      simp only [hsl] at h
      by_cases hdet : sndLast = l ∧ st1.cursor.firstSeg = true
      · rw [if_pos hdet] at h
        simp only [bind, Except.bind] at h
        cases hadd : addSegment ⟨[(loopNode st1.cursor.path.dropLast, [])], none⟩
            st1.cursor seg with
        | error e => rw [hadd] at h; exact (Except.noConfusion h)
        | ok sp1 =>
          rw [hadd] at h
          cases h
          refine ⟨?_, ?_, ?_⟩
          · simpa [spineOk, List.isEmpty_iff] using
              addSegment_levels _ sp1 _ _ hadd (by simp)
          · simp only [Option.isSome_some, Bool.toNat_true]
            rw [treeYield_count st1.curTree hok]
            omega
          · intro n hn hflat
            exact absurd (treeYield_isLoop st1.curTree n hn) (by simp [hflat])
      · rw [if_neg hdet] at h
        cases hcd : st1.curData with
        | cdInTree =>
          cases hct : st1.curTree with
          | none => simp only [hcd, hct] at h; exact (Except.noConfusion h)
          | some sp =>
            simp only [hcd, hct, bind, Except.bind] at h
            cases hadd : addSegment sp st1.cursor seg with
            | error e => rw [hadd] at h; exact (Except.noConfusion h)
            | ok sp1 =>
              rw [hadd] at h
              cases h
              refine ⟨?_, ?_, ?_⟩
              · have hne : sp.levels ≠ [] := by
                  rw [hct] at hok
                  simpa [spineOk, List.isEmpty_iff] using hok
                simpa [spineOk, List.isEmpty_iff] using
                  addSegment_levels sp sp1 _ _ hadd hne
              · simp [hct, countTrees]
              · intro n hn
                simp at hn
        | cdNone => simp only [hcd] at h; exact (Except.noConfusion h)
        | cdFlat m =>
          cases hct : st1.curTree with
          | none => simp only [hcd, hct] at h; exact (Except.noConfusion h)
          | some sp => simp only [hcd, hct] at h; exact (Except.noConfusion h)
  · rw [if_neg hmem] at h
    cases h
    unfold flatYield
    cases hpm : prevMapNode st1 with
    | some pm =>
      refine ⟨by simp [spineOk], ?_, ?_⟩
      · simp only
        rw [countTrees_flat, treeYield_count st1.curTree hok]
        simp
      · intro n hn hflat
        simp only [List.mem_append, List.mem_singleton] at hn
        rcases hn with hn | hn
        · exact absurd (treeYield_isLoop st1.curTree n hn) (by simp [hflat])
        · rw [hn]
          exact hmem
    | none =>
      refine ⟨by simp [spineOk], ?_, ?_⟩
      · simp only
        rw [countTrees_flat, treeYield_count st1.curTree hok]
        simp
      · intro n hn hflat
        simp only [List.mem_append, List.mem_singleton] at hn
        rcases hn with hn | hn
        · exact absurd (treeYield_isLoop st1.curTree n hn) (by simp [hflat])
        · rw [hn]
          exact hmem

/-- The full scoped step keeps the tree/detection balance. -/
theorem stepSeg_scoped_spec (env : Env) (l : String) (st st2 : RState) (seg : Seg)
    (ys : List DataNode) (evs : List ErrEvent)
    (h : stepSeg env (some l) st seg = .ok (st2, ys, evs))
    (hok : spineOk st.curTree = true) :
    spineOk st2.curTree = true
    ∧ countTrees ys + st2.curTree.isSome.toNat + st.dets
        = st.curTree.isSome.toNat + st2.dets
    ∧ ∀ n ∈ ys, isLoopNode n = false → l ∉ (nodeMapOf n).path := by
  unfold stepSeg at h
  cases hres : resolveSeg env st.cursor seg with
  | none =>
    simp only [hres] at h
    have heta : ({ st with cursor := st.cursor } : RState) = st := rfl
    rw [heta] at h
    exact yieldPhase_scoped_spec l st st2 seg [] evs ys h hok
  | some n =>
    simp only [hres, bind, Except.bind] at h
    cases hse : sideEffects env { st with cursor := n } seg with
    | error e => rw [hse] at h; exact Except.noConfusion h
    | ok p =>
      obtain ⟨st1, evs1⟩ := p
      rw [hse] at h
      simp only at h
      have hpres := sideEffects_preserves env { st with cursor := n } st1 seg evs1 hse
      have ht : st1.curTree = st.curTree := hpres.1
      have hd : st1.dets = st.dets := hpres.2.2.1
      have hok1 : spineOk st1.curTree = true := by rw [ht]; exact hok
      have hspec := yieldPhase_scoped_spec l st1 st2 seg evs1 evs ys h hok1
      refine ⟨hspec.1, ?_, hspec.2.2⟩
      have heq := hspec.2.1
      rw [ht, hd] at heq
      exact heq

/-- Whole-stream scoped balance: trees yielded plus a still-buffered tree
equal the detections, and flat yields lie outside the requested loop. -/
theorem runSegs_scoped_spec (env : Env) (l : String) (segs : List Seg)
    (st st2 : RState) (ys : List DataNode) (evs : List ErrEvent)
    (h : runSegs env (some l) segs st = .ok (st2, ys, evs))
    (hok : spineOk st.curTree = true) :
    spineOk st2.curTree = true
    ∧ countTrees ys + st2.curTree.isSome.toNat + st.dets
        = st.curTree.isSome.toNat + st2.dets
    ∧ ∀ n ∈ ys, isLoopNode n = false → l ∉ (nodeMapOf n).path := by
  induction segs generalizing st ys evs with
  | nil =>
    simp only [runSegs] at h
    cases h
    exact ⟨hok, by simp [countTrees], by simp⟩
  | cons s rest ih =>
    simp only [runSegs, bind, Except.bind] at h
    cases hstep : stepSeg env (some l) st s with
    | error e => rw [hstep] at h; exact Except.noConfusion h
    | ok p =>
      obtain ⟨st1, ys1, evs1⟩ := p
      rw [hstep] at h
      simp only at h
      cases hrun : runSegs env (some l) rest st1 with
      | error e => rw [hrun] at h; exact Except.noConfusion h
      | ok q =>
        obtain ⟨stf, ys2, evs2⟩ := q
        rw [hrun] at h
        simp only at h
        cases h
        have h1 := stepSeg_scoped_spec env l st st1 s ys1 evs1 hstep hok
        have h2 := ih st1 ys2 evs2 hrun h1.1
        refine ⟨h2.1, ?_, ?_⟩
        · rw [countTrees_append]
          have e1 := h1.2.1
          have e2 := h2.2.1
          omega
        · intro n hn hflat
          rcases List.mem_append.mp hn with hn | hn
          · exact h1.2.2 n hn hflat
          · exact h2.2.2 n hn hflat

/-- The flat yield leaves no buffered tree, keeps the cursor, and yields
the closed-out tree (if any) followed by exactly one flat node for the
segment. -/
theorem flatYield_eq (st : RState) (seg : Seg) :
    (flatYield st seg).1.curTree = none
    ∧ (flatYield st seg).1.cursor = st.cursor
    ∧ (flatYield st seg).2 =
        treeYield st.curTree ++ [mkFlatNode (prevMapNode st) st.cursor seg st.nextRef] := by
  unfold flatYield
  cases hpm : prevMapNode st with
  | some pm => simp [mkFlatNode]
  | none => simp [mkFlatNode]

/-- The previous data node's grammar node depends only on `cur_data_node`
and the buffered tree. -/
theorem prevMapNode_congr (st1 st2 : RState) (hd : st1.curData = st2.curData)
    (ht : st1.curTree = st2.curTree) : prevMapNode st1 = prevMapNode st2 := by
  unfold prevMapNode
  rw [hd, ht]

/-- A scoped yield phase whose resulting cursor lies outside the requested
loop is exactly the flat yield. -/
theorem yieldPhase_out_eq_flat (l : String) (st st2 : RState) (seg : Seg)
    (evs evs2 : List ErrEvent) (ys : List DataNode)
    (h : yieldPhase (some l) st seg evs = .ok (st2, ys, evs2))
    (hout : l ∉ st2.cursor.path) :
    st2 = (flatYield st seg).1 ∧ ys = (flatYield st seg).2 ∧ evs2 = evs := by
  simp only [yieldPhase] at h
  by_cases hmem : l ∈ st.cursor.path
  · rw [if_pos hmem] at h
    cases hsl : st.cursor.path.dropLast.getLast? with
    | none => simp only [hsl] at h; exact (Except.noConfusion h)
    | some sndLast =>
      simp only [hsl] at h
      by_cases hdet : sndLast = l ∧ st.cursor.firstSeg = true
      · rw [if_pos hdet] at h
        simp only [bind, Except.bind] at h
        cases hadd : addSegment ⟨[(loopNode st.cursor.path.dropLast, [])], none⟩
            st.cursor seg with
        | error e => rw [hadd] at h; exact (Except.noConfusion h)
        | ok sp1 =>
          rw [hadd] at h
          cases h
          exact absurd hmem hout
      · rw [if_neg hdet] at h
        cases hcd : st.curData with
        | cdInTree =>
          cases hct : st.curTree with
          | none => simp only [hcd, hct] at h; exact (Except.noConfusion h)
          | some sp =>
            simp only [hcd, hct, bind, Except.bind] at h
            cases hadd : addSegment sp st.cursor seg with
            | error e => rw [hadd] at h; exact (Except.noConfusion h)
            | ok sp1 =>
              rw [hadd] at h
              cases h
              exact absurd hmem hout
        | cdNone => simp only [hcd] at h; exact (Except.noConfusion h)
        | cdFlat m =>
          cases hct : st.curTree with
          | none => simp only [hcd, hct] at h; exact (Except.noConfusion h)
          | some sp => simp only [hcd, hct] at h; exact (Except.noConfusion h)
  · rw [if_neg hmem] at h
    cases h
    exact ⟨rfl, rfl, rfl⟩

/-- Completeness of out-of-scope yielding: every scoped step whose
resolved grammar node lies outside the requested loop closes out any
buffered tree, yields exactly one flat node for the segment, and leaves
nothing buffered. -/
theorem stepSeg_out_of_scope (env : Env) (l : String) (st stN : RState)
    (s : Seg) (ys1 : List DataNode) (e1 : List ErrEvent)
    (h : stepSeg env (some l) st s = .ok (stN, ys1, e1))
    (hout : l ∉ stN.cursor.path) :
    stN.curTree = none
    ∧ ys1 = treeYield st.curTree
        ++ [mkFlatNode (prevMapNode st) stN.cursor s st.nextRef] := by
  unfold stepSeg at h
  cases hres : resolveSeg env st.cursor s with
  | none =>
    simp only [hres] at h
    have heta : ({ st with cursor := st.cursor } : RState) = st := rfl
    rw [heta] at h
    obtain ⟨hst, hys, -⟩ := yieldPhase_out_eq_flat l st stN s [] e1 ys1 h hout
    have hfe := flatYield_eq st s
    refine ⟨by rw [hst]; exact hfe.1, ?_⟩
    rw [hys, hfe.2.2, hst, hfe.2.1]
  | some n =>
    simp only [hres, bind, Except.bind] at h
    cases hse : sideEffects env { st with cursor := n } s with
    | error e => rw [hse] at h; exact Except.noConfusion h
    | ok p =>
      obtain ⟨st1, evs1⟩ := p
      rw [hse] at h
      simp only at h
      have hpres := sideEffects_preserves env { st with cursor := n } st1 s _ hse
      have ht : st1.curTree = st.curTree := hpres.1
      have hd : st1.curData = st.curData := hpres.2.1
      have hr : st1.nextRef = st.nextRef := hpres.2.2.2
      obtain ⟨hst, hys, -⟩ := yieldPhase_out_eq_flat l st1 stN s _ e1 ys1 h hout
      have hfe := flatYield_eq st1 s
      refine ⟨by rw [hst]; exact hfe.1, ?_⟩
      rw [hys, hfe.2.2, hst, hfe.2.1, ht, hr,
        prevMapNode_congr st1 st hd ht]

/-- A flat node is never a loop node. -/
theorem isLoopNode_mkFlatNode (pm : Option MapNode) (cur : MapNode) (s : Seg)
    (r : Nat) : isLoopNode (mkFlatNode pm cur s r) = false := by
  cases pm <;> simp [mkFlatNode, isLoopNode]

/-- C3 amended: in scoped mode the sequence yields one completed subtree
per detected occurrence of the requested loop — except for an occurrence
still being buffered when the stream ends — and yields every out-of-scope
segment as a flat segment node, never buffering it: each step whose
resolved grammar node lies outside the requested loop closes out any
buffered tree and yields exactly one flat (non-loop) node for that
segment, leaving nothing buffered; conversely every flat node yielded lies
outside the requested loop's path. -/
theorem c3_amended_scoped_yield_shape (env : Env) (l : String) (segs : List Seg)
    (cc : List (List String × Nat)) (st2 : RState) (ys : List DataNode)
    (evs : List ErrEvent)
    (h : runSegs env (some l) segs (initState cc) = .ok (st2, ys, evs)) :
    countTrees ys + st2.curTree.isSome.toNat = st2.dets
    ∧ (∀ n ∈ ys, isLoopNode n = false → l ∉ (nodeMapOf n).path)
    ∧ ∀ (st stN : RState) (s : Seg) (ys1 : List DataNode) (e1 : List ErrEvent),
        stepSeg env (some l) st s = .ok (stN, ys1, e1) → l ∉ stN.cursor.path →
        stN.curTree = none
        ∧ ys1 = treeYield st.curTree
            ++ [mkFlatNode (prevMapNode st) stN.cursor s st.nextRef]
        ∧ isLoopNode (mkFlatNode (prevMapNode st) stN.cursor s st.nextRef) = false := by
  have hspec := runSegs_scoped_spec env l segs (initState cc) st2 ys evs h rfl
  refine ⟨?_, hspec.2.2, ?_⟩
  · have heq := hspec.2.1
    simp only [initState] at heq
    simpa using heq
  · intro st stN s ys1 e1 hstep hout
    obtain ⟨h1, h2⟩ := stepSeg_out_of_scope env l st stN s ys1 e1 hstep hout
    exact ⟨h1, h2, isLoopNode_mkFlatNode _ _ _ _⟩

/-- Witness for the amended C3: the concrete scoped run with one `B`
occurrence and one out-of-scope segment. -/
theorem c3_amended_witness :
    countTrees ysC3 + stC3.curTree.isSome.toNat = stC3.dets
    ∧ (∀ n ∈ ysC3, isLoopNode n = false → "B" ∉ (nodeMapOf n).path)
    ∧ ∀ (st stN : RState) (s : Seg) (ys1 : List DataNode) (e1 : List ErrEvent),
        stepSeg envT (some "B") st s = .ok (stN, ys1, e1) → "B" ∉ stN.cursor.path →
        stN.curTree = none
        ∧ ys1 = treeYield st.curTree
            ++ [mkFlatNode (prevMapNode st) stN.cursor s st.nextRef]
        ∧ isLoopNode (mkFlatNode (prevMapNode st) stN.cursor s st.nextRef) = false :=
  c3_amended_scoped_yield_shape envT "B" [sA, sC] [] stC3 ysC3
    [ErrEvent.addSeg, ErrEvent.handleErrors, ErrEvent.addSeg, ErrEvent.handleErrors] rfl

/-- A loop node always satisfies the allocation discipline. -/
theorem yieldRefsOk_of_isLoop (n : DataNode) (h : isLoopNode n = true) :
    yieldRefsOk n = true := by
  cases n with
  | loop m cs => rfl
  | seg m sd sl el r1 r2 => simp [isLoopNode] at h

/-- The flat-yield branch: the allocation counter stays `≥ 2` and every
yielded node is either one of the defaults-built nodes (shared lists 0 and
1, both empty) or carries a freshly allocated pair of list indices. -/
theorem flatYield_refs (st : RState) (seg : Seg) (hr : 2 ≤ st.nextRef) :
    2 ≤ (flatYield st seg).1.nextRef
    ∧ ∀ n ∈ (flatYield st seg).2, yieldRefsOk n = true := by
  unfold flatYield
  cases hpm : prevMapNode st with
  | some pm =>
    refine ⟨by simp, ?_⟩
    intro n hn
    simp only [List.mem_append, List.mem_singleton] at hn
    rcases hn with hn | hn
    · exact yieldRefsOk_of_isLoop n (treeYield_isLoop st.curTree n hn)
    · rw [hn]
      simp [yieldRefsOk]
      omega
  | none =>
    refine ⟨by simpa using hr, ?_⟩
    intro n hn
    simp only [List.mem_append, List.mem_singleton] at hn
    rcases hn with hn | hn
    · exact yieldRefsOk_of_isLoop n (treeYield_isLoop st.curTree n hn)
    · rw [hn]
      simp [yieldRefsOk]

/-- The yield phase preserves the allocation discipline. -/
theorem yieldPhase_refs (lid : Option String) (st st2 : RState) (seg : Seg)
    (evs evs2 : List ErrEvent) (ys : List DataNode)
    (h : yieldPhase lid st seg evs = .ok (st2, ys, evs2))
    (hr : 2 ≤ st.nextRef) :
    2 ≤ st2.nextRef ∧ ∀ n ∈ ys, yieldRefsOk n = true := by
  simp only [yieldPhase] at h
  cases lid with
  | none =>
    simp only at h
    cases h
    exact flatYield_refs st seg hr
  | some l =>
    simp only at h
    by_cases hmem : l ∈ st.cursor.path
    · rw [if_pos hmem] at h
      cases hsl : st.cursor.path.dropLast.getLast? with
      | none => simp only [hsl] at h; exact (Except.noConfusion h)
      | some sndLast =>
        simp only [hsl] at h
        by_cases hdet : sndLast = l ∧ st.cursor.firstSeg = true
        · rw [if_pos hdet] at h
          simp only [bind, Except.bind] at h
          cases hadd : addSegment ⟨[(loopNode st.cursor.path.dropLast, [])], none⟩
              st.cursor seg with
          | error e => rw [hadd] at h; exact (Except.noConfusion h)
          | ok sp1 =>
            rw [hadd] at h
            cases h
            refine ⟨by simpa using hr, ?_⟩
            intro n hn
            exact yieldRefsOk_of_isLoop n (treeYield_isLoop st.curTree n hn)
        · rw [if_neg hdet] at h
          cases hcd : st.curData with
          | cdInTree =>
            cases hct : st.curTree with
            | none => simp only [hcd, hct] at h; exact (Except.noConfusion h)
            | some sp =>
              simp only [hcd, hct, bind, Except.bind] at h
              cases hadd : addSegment sp st.cursor seg with
              | error e => rw [hadd] at h; exact (Except.noConfusion h)
              | ok sp1 =>
                rw [hadd] at h
                cases h
                exact ⟨by simpa using hr, by simp⟩
          | cdNone => simp only [hcd] at h; exact (Except.noConfusion h)
          | cdFlat m =>
            cases hct : st.curTree with
            | none => simp only [hcd, hct] at h; exact (Except.noConfusion h)
            | some sp => simp only [hcd, hct] at h; exact (Except.noConfusion h)
    · rw [if_neg hmem] at h
      cases h
      exact flatYield_refs st seg hr

/-- One full step preserves the allocation discipline. -/
theorem stepSeg_refs (env : Env) (lid : Option String) (st st2 : RState)
    (seg : Seg) (ys : List DataNode) (evs : List ErrEvent)
    (h : stepSeg env lid st seg = .ok (st2, ys, evs)) (hr : 2 ≤ st.nextRef) :
    2 ≤ st2.nextRef ∧ ∀ n ∈ ys, yieldRefsOk n = true := by
  unfold stepSeg at h
  cases hres : resolveSeg env st.cursor seg with
  | none =>
    simp only [hres] at h
    have heta : ({ st with cursor := st.cursor } : RState) = st := rfl
    rw [heta] at h
    exact yieldPhase_refs lid st st2 seg [] evs ys h hr
  | some n =>
    simp only [hres, bind, Except.bind] at h
    cases hse : sideEffects env { st with cursor := n } seg with
    | error e => rw [hse] at h; exact Except.noConfusion h
    | ok p =>
      obtain ⟨st1, evs1⟩ := p
      rw [hse] at h
      simp only at h
      have hpres := sideEffects_preserves env { st with cursor := n } st1 seg evs1 hse
      have hnr : st1.nextRef = st.nextRef := hpres.2.2.2
      exact yieldPhase_refs lid st1 st2 seg evs1 evs ys h (by rw [hnr]; exact hr)

/-- A whole run preserves the allocation discipline. -/
theorem runSegs_refs (env : Env) (lid : Option String) (segs : List Seg)
    (st st2 : RState) (ys : List DataNode) (evs : List ErrEvent)
    (h : runSegs env lid segs st = .ok (st2, ys, evs)) (hr : 2 ≤ st.nextRef) :
    2 ≤ st2.nextRef ∧ ∀ n ∈ ys, yieldRefsOk n = true := by
  induction segs generalizing st ys evs with
  | nil =>
    simp only [runSegs] at h
    cases h
    exact ⟨hr, by simp⟩
  | cons s rest ih =>
    simp only [runSegs, bind, Except.bind] at h
    cases hstep : stepSeg env lid st s with
    | error e => rw [hstep] at h; exact Except.noConfusion h
    | ok p =>
      obtain ⟨st1, ys1, evs1⟩ := p
      rw [hstep] at h
      simp only at h
      cases hrun : runSegs env lid rest st1 with
      | error e => rw [hrun] at h; exact Except.noConfusion h
      | ok q =>
        obtain ⟨stf, ys2, evs2⟩ := q
        rw [hrun] at h
        simp only at h
        cases h
        have h1 := stepSeg_refs env lid st st1 s ys1 evs1 hstep hr
        have h2 := ih st1 ys2 evs2 hrun h1.1
        refine ⟨h2.1, ?_⟩
        intro n hn
        rcases List.mem_append.mp hn with hn | hn
        · exact h1.2 n hn
        · exact h2.2 n hn

/-- With no previous data node and no buffered tree, the flat yield is the
single defaults-built node at the current cursor. -/
theorem flatYield_default (st : RState) (seg : Seg)
    (h1 : st.curData = CurD.cdNone) (h2 : st.curTree = none) :
    (flatYield st seg).2 = [DataNode.seg st.cursor seg [] [] 0 1] := by
  unfold flatYield
  have hpm : prevMapNode st = none := by
    unfold prevMapNode
    rw [h1]
  simp [hpm, treeYield, h2]

/-- The first step of a run (no previous data node, no buffered tree) in
unscoped mode yields exactly one defaults-built flat node carrying the
shared default list objects. -/
theorem stepSeg_first_default (env : Env) (st st2 : RState) (seg : Seg)
    (ys : List DataNode) (evs : List ErrEvent)
    (h : stepSeg env none st seg = .ok (st2, ys, evs))
    (h1 : st.curData = CurD.cdNone) (h2 : st.curTree = none) :
    ∃ m, ys = [DataNode.seg m seg [] [] 0 1] := by
  unfold stepSeg at h
  cases hres : resolveSeg env st.cursor seg with
  | none =>
    simp only [hres] at h
    have heta : ({ st with cursor := st.cursor } : RState) = st := rfl
    rw [heta] at h
    simp only [yieldPhase] at h
    cases h
    exact ⟨st.cursor, flatYield_default st seg h1 h2⟩
  | some n =>
    simp only [hres, bind, Except.bind] at h
    cases hse : sideEffects env { st with cursor := n } seg with
    | error e => rw [hse] at h; exact Except.noConfusion h
    | ok p =>
      obtain ⟨st1, evs1⟩ := p
      rw [hse] at h
      simp only [yieldPhase] at h
      cases h
      have hpres := sideEffects_preserves env { st with cursor := n } st1 seg _ hse
      have hd1 : st1.curData = CurD.cdNone := by rw [hpres.2.1]; exact h1
      have ht1 : st1.curTree = none := by rw [hpres.1]; exact h2
      exact ⟨st1.cursor, flatYield_default st1 seg hd1 ht1⟩

/-- After any yield phase, a still-buffered tree implies the data-node
cursor references it (`cur_data_node` points into `cur_tree`). -/
theorem yieldPhase_tree_data (lid : Option String) (st st2 : RState) (seg : Seg)
    (evs evs2 : List ErrEvent) (ys : List DataNode)
    (h : yieldPhase lid st seg evs = .ok (st2, ys, evs2)) :
    st2.curTree.isSome = true → st2.curData = CurD.cdInTree := by
  simp only [yieldPhase] at h
  cases lid with
  | none =>
    simp only at h
    cases h
    unfold flatYield
    cases hpm : prevMapNode st <;> simp
  | some l =>
    simp only at h
    by_cases hmem : l ∈ st.cursor.path
    · rw [if_pos hmem] at h
      cases hsl : st.cursor.path.dropLast.getLast? with
      | none => simp only [hsl] at h; exact (Except.noConfusion h)
      | some sndLast =>
        simp only [hsl] at h
        by_cases hdet : sndLast = l ∧ st.cursor.firstSeg = true
        · rw [if_pos hdet] at h
          simp only [bind, Except.bind] at h
          cases hadd : addSegment ⟨[(loopNode st.cursor.path.dropLast, [])], none⟩
              st.cursor seg with
          | error e => rw [hadd] at h; exact (Except.noConfusion h)
          | ok sp1 =>
            rw [hadd] at h
            cases h
            intro _
            rfl
        · rw [if_neg hdet] at h
          cases hcd : st.curData with
          | cdInTree =>
            cases hct : st.curTree with
            | none => simp only [hcd, hct] at h; exact (Except.noConfusion h)
            | some sp =>
              simp only [hcd, hct, bind, Except.bind] at h
              cases hadd : addSegment sp st.cursor seg with
              | error e => rw [hadd] at h; exact (Except.noConfusion h)
              | ok sp1 =>
                rw [hadd] at h
                cases h
                intro _
                simp [hcd]
          | cdNone => simp only [hcd] at h; exact (Except.noConfusion h)
          | cdFlat m =>
            cases hct : st.curTree with
            | none => simp only [hcd, hct] at h; exact (Except.noConfusion h)
            | some sp => simp only [hcd, hct] at h; exact (Except.noConfusion h)
    · rw [if_neg hmem] at h
      cases h
      unfold flatYield
      cases hpm : prevMapNode st <;> simp

/-- One full step leaves a still-buffered tree only with the data-node
cursor inside it. -/
theorem stepSeg_tree_data (env : Env) (lid : Option String) (st st2 : RState)
    (seg : Seg) (ys : List DataNode) (evs : List ErrEvent)
    (h : stepSeg env lid st seg = .ok (st2, ys, evs)) :
    st2.curTree.isSome = true → st2.curData = CurD.cdInTree := by
  unfold stepSeg at h
  cases hres : resolveSeg env st.cursor seg with
  | none =>
    simp only [hres] at h
    have heta : ({ st with cursor := st.cursor } : RState) = st := rfl
    rw [heta] at h
    exact yieldPhase_tree_data lid st st2 seg [] evs ys h
  | some n =>
    simp only [hres, bind, Except.bind] at h
    cases hse : sideEffects env { st with cursor := n } seg with
    | error e => rw [hse] at h; exact Except.noConfusion h
    | ok p =>
      obtain ⟨st1, evs1⟩ := p
      rw [hse] at h
      simp only at h
      exact yieldPhase_tree_data lid st1 st2 seg _ evs ys h

/-- Through a whole run, a still-buffered tree always has the data-node
cursor inside it. -/
theorem runSegs_tree_data (env : Env) (lid : Option String) (segs : List Seg)
    (st st2 : RState) (ys : List DataNode) (evs : List ErrEvent)
    (h : runSegs env lid segs st = .ok (st2, ys, evs))
    (hin : st.curTree.isSome = true → st.curData = CurD.cdInTree) :
    st2.curTree.isSome = true → st2.curData = CurD.cdInTree := by
  induction segs generalizing st ys evs with
  | nil =>
    simp only [runSegs] at h
    cases h
    exact hin
  | cons s rest ih =>
    simp only [runSegs, bind, Except.bind] at h
    cases hstep : stepSeg env lid st s with
    | error e => rw [hstep] at h; exact Except.noConfusion h
    | ok p =>
      obtain ⟨st1, ys1, evs1⟩ := p
      rw [hstep] at h
      simp only at h
      cases hrun : runSegs env lid rest st1 with
      | error e => rw [hrun] at h; exact Except.noConfusion h
      | ok q =>
        obtain ⟨stf, ys2, evs2⟩ := q
        rw [hrun] at h
        simp only at h
        cases h
        exact ih st1 ys2 evs2 hrun
          (stepSeg_tree_data env lid st st1 s ys1 evs1 hstep)

/-- C9 amended: the first flat node of an unscoped iteration is built
through the constructor's default arguments, so its `start_loops` and
`end_loops` are the two empty shared default list objects (allocation
indices 0 and 1); every other yielded flat node either is also
defaults-built with exactly those two shared objects or carries a freshly
allocated pair of lists (indices `≥ 2`, never the defaults).  The first
out-of-scope node after a scoped tree belongs to the second kind: whenever
a scoped run still buffers a tree, the step consuming the next
out-of-scope segment yields that tree followed by a flat node whose
`start_loops`/`end_loops` are the computed push/pop lists in freshly
allocated list objects (indices `≥ 2`), not the defaults. -/
theorem c9_amended_default_lists_shared (env : Env) (lid : Option String)
    (segs : List Seg) (cc : List (List String × Nat)) (st2 : RState)
    (ys : List DataNode) (evs : List ErrEvent)
    (h : runSegs env lid segs (initState cc) = .ok (st2, ys, evs)) :
    (∀ n ∈ ys, yieldRefsOk n = true)
    ∧ (∀ s rest, lid = none → segs = s :: rest →
        ∃ m, ys.head? = some (DataNode.seg m s [] [] 0 1))
    ∧ ∀ (l : String) (s : Seg) (stN : RState) (ys1 : List DataNode)
        (e1 : List ErrEvent), lid = some l → st2.curTree.isSome = true →
        stepSeg env (some l) st2 s = .ok (stN, ys1, e1) → l ∉ stN.cursor.path →
        ∃ pm, prevMapNode st2 = some pm
          ∧ ys1 = treeYield st2.curTree
              ++ [DataNode.seg stN.cursor s (getPushLoops pm stN.cursor)
                    (getPopLoops pm stN.cursor) st2.nextRef (st2.nextRef + 1)]
          ∧ 2 ≤ st2.nextRef := by
  refine ⟨(runSegs_refs env lid segs (initState cc) st2 ys evs h (by simp [initState])).2,
    ?_, ?_⟩
  case refine_2 =>
    intro l s stN ys1 e1 hl hsome hstep hout
    subst hl
    have hcd : st2.curData = CurD.cdInTree :=
      runSegs_tree_data env (some l) segs (initState cc) st2 ys evs h
        (by intro hx; simp [initState] at hx) hsome
    obtain ⟨sp, hsp⟩ := Option.isSome_iff_exists.mp hsome
    have hpm : prevMapNode st2 = some (cursorMap sp) := by
      unfold prevMapNode
      rw [hcd, hsp]
      rfl
    have hrefs : 2 ≤ st2.nextRef :=
      (runSegs_refs env (some l) segs (initState cc) st2 ys evs h
        (by simp [initState])).1
    obtain ⟨-, hys⟩ := stepSeg_out_of_scope env l st2 stN s ys1 e1 hstep hout
    refine ⟨cursorMap sp, hpm, ?_, hrefs⟩
    rw [hys, hpm]
    rfl
  intro s rest hlid hsegs
  subst hlid
  subst hsegs
  simp only [runSegs, bind, Except.bind] at h
  cases hstep : stepSeg env none (initState cc) s with
  | error e => rw [hstep] at h; exact Except.noConfusion h
  | ok p =>
    obtain ⟨st1, ys1, evs1⟩ := p
    rw [hstep] at h
    simp only at h
    cases hrun : runSegs env none rest st1 with
    | error e => rw [hrun] at h; exact Except.noConfusion h
    | ok q =>
      obtain ⟨stf, ys2, evs2⟩ := q
      rw [hrun] at h
      simp only at h
      cases h
      obtain ⟨m, hm⟩ := stepSeg_first_default env (initState cc) st1 s ys1 evs1
        hstep rfl rfl
      exact ⟨m, by simp [hm]⟩

/-- Witness for the amended C9: the two-segment unscoped run. -/
theorem c9_amended_witness :
    (∀ n ∈ ysC9, yieldRefsOk n = true)
    ∧ (∀ s rest, (none : Option String) = none → [sA, sC] = s :: rest →
        ∃ m, ysC9.head? = some (DataNode.seg m s [] [] 0 1))
    ∧ ∀ (l : String) (s : Seg) (stN : RState) (ys1 : List DataNode)
        (e1 : List ErrEvent), (none : Option String) = some l →
        stC9.curTree.isSome = true →
        stepSeg envT (some l) stC9 s = .ok (stN, ys1, e1) → l ∉ stN.cursor.path →
        ∃ pm, prevMapNode stC9 = some pm
          ∧ ys1 = treeYield stC9.curTree
              ++ [DataNode.seg stN.cursor s (getPushLoops pm stN.cursor)
                    (getPopLoops pm stN.cursor) stC9.nextRef (stC9.nextRef + 1)]
          ∧ 2 ≤ stC9.nextRef :=
  c9_amended_default_lists_shared envT none [sA, sC] [] stC9 ysC9
    [ErrEvent.addSeg, ErrEvent.handleErrors, ErrEvent.addSeg, ErrEvent.handleErrors] rfl

/-- Unfolding of the event stream of a loop node. -/
theorem iterateLoopSegments_loop (m : MapNode) (cs : List DataNode) :
    iterateLoopSegments (DataNode.loop m cs) =
      [LoopEvent.loopStart m.id] ++ (cs.map iterateLoopSegments).flatten
        ++ [LoopEvent.loopEnd m.id] := by
  rw [iterateLoopSegments]
  congr 1
  congr 1
  congr 1
  exact List.attach_map_coe cs iterateLoopSegments

/-- Unfolding of the cleanliness of a loop node. -/
theorem cleanNode_loop_iff (m : MapNode) (cs : List DataNode) :
    cleanNode (DataNode.loop m cs) = true ↔ ∀ c ∈ cs, cleanNode c = true := by
  rw [cleanNode]
  rw [show (cs.attach.map (fun c => cleanNode c.1)) = cs.map cleanNode from
    List.attach_map_coe cs cleanNode]
  simp [List.all_eq_true]

/-- Events of a clean node cancel out of the bracket check. -/
theorem checkNest_clean : ∀ (k : Nat) (n : DataNode), sizeOf n ≤ k →
    cleanNode n = true → ∀ (rest : List LoopEvent) (stk : List String),
      checkNest (iterateLoopSegments n ++ rest) stk = checkNest rest stk := by
  intro k
  induction k with
  | zero =>
    intro n hsz
    cases n with
    | loop m cs => simp at hsz
    | seg m sd sl el r1 r2 => simp at hsz
  | succ k ih =>
    intro n hsz hc rest stk
    cases n with
    | seg m sd sl el r1 r2 =>
      rw [cleanNode] at hc
      simp only [Bool.and_eq_true, List.isEmpty_iff] at hc
      obtain ⟨h1, h2⟩ := hc
      subst h1
      subst h2
      rw [iterateLoopSegments]
      simp [checkNest]
    | loop m cs =>
      have hcs : ∀ c ∈ cs, cleanNode c = true := (cleanNode_loop_iff m cs).mp hc
      have hsize : ∀ c ∈ cs, sizeOf c ≤ k := by
        intro c hcmem
        have := List.sizeOf_lt_of_mem hcmem
        simp at hsz
        omega
      rw [iterateLoopSegments_loop]
      have hmid : ∀ (cs' : List DataNode), (∀ c ∈ cs', cleanNode c = true) →
          (∀ c ∈ cs', sizeOf c ≤ k) → ∀ (tail : List LoopEvent) (stk' : List String),
          checkNest ((cs'.map iterateLoopSegments).flatten ++ tail) stk' =
            checkNest tail stk' := by
        intro cs'
        induction cs' with
        | nil => intro _ _ tail stk'; simp
        | cons c cs'' ihc =>
          intro hclean hsz' tail stk'
          simp only [List.map_cons, List.flatten_cons, List.append_assoc]
          rw [ih c (hsz' c (by simp)) (hclean c (by simp))]
          exact ihc (fun x hx => hclean x (by simp [hx]))
            (fun x hx => hsz' x (by simp [hx])) tail stk'
      have hstep : checkNest (([LoopEvent.loopStart m.id]
            ++ (cs.map iterateLoopSegments).flatten ++ [LoopEvent.loopEnd m.id])
            ++ rest) stk
          = checkNest ((cs.map iterateLoopSegments).flatten
              ++ ([LoopEvent.loopEnd m.id] ++ rest)) (m.id :: stk) := by
        simp only [List.append_assoc, List.cons_append, List.nil_append]
        rfl
      rw [hstep, hmid cs hcs hsize]
      simp [checkNest]

/-- A clean document node's event stream is well-nested. -/
theorem wellNested_of_clean (n : DataNode) (h : cleanNode n = true) :
    wellNested (iterateLoopSegments n) = true := by
  unfold wellNested
  have := checkNest_clean (sizeOf n) n (le_refl _) h [] []
  simpa using this

/-- Segment leaves created by `_add_segment` are clean (default empty
bracket lists). -/
theorem leafDataNode_clean (m : MapNode) (sd : Seg) :
    cleanNode (leafDataNode m sd) = true := by
  simp [leafDataNode, cleanNode]

/-- `splitLast` decomposes a list into its initial part and last element. -/
theorem splitLast_append {α : Type} (ls xs : List α) (l : α)
    (h : splitLast ls = some (xs, l)) : ls = xs ++ [l] := by
  induction ls generalizing xs l with
  | nil => simp [splitLast] at h
  | cons a rest ih =>
    cases rest with
    | nil =>
      simp only [splitLast, Option.some.injEq, Prod.mk.injEq] at h
      rw [← h.1, ← h.2]
      rfl
    | cons b rs =>
      simp only [splitLast] at h
      cases hs : splitLast (b :: rs) with
      | none => rw [hs] at h; cases h
      | some p =>
        obtain ⟨ys, l0⟩ := p
        rw [hs] at h
        simp only [Option.some.injEq, Prod.mk.injEq] at h
        obtain ⟨h1, h2⟩ := h
        subst h1
        subst h2
        simpa using ih ys l0 hs

/-- Appending a clean child keeps a clean level stack. -/
theorem appendToLast_clean (ls : List (MapNode × List DataNode)) (d : DataNode)
    (h : ls.all (fun x => x.2.all cleanNode) = true) (hd : cleanNode d = true) :
    (appendToLast ls d).all (fun x => x.2.all cleanNode) = true := by
  induction ls with
  | nil => simp [appendToLast]
  | cons x rest ih =>
    cases rest with
    | nil =>
      obtain ⟨m, cs⟩ := x
      simp only [appendToLast, List.all_cons, List.all_nil, Bool.and_true,
        List.all_append] at h ⊢
      simp [h, hd]
    | cons y rs =>
      simp only [List.all_cons, Bool.and_eq_true] at h
      simp only [appendToLast, List.all_cons, Bool.and_eq_true]
      exact ⟨h.1, by simpa using ih (by simp [h.2.1, h.2.2])⟩

/-- A parent step keeps the spine clean. -/
theorem popOne_clean (sp sp' : Spine) (h : popOne sp = some sp')
    (hc : cleanSpine (some sp) = true) : cleanSpine (some sp') = true := by
  simp only [cleanSpine] at hc ⊢
  unfold popOne at h
  split at h
  · rename_i m sd heq
    cases h
    exact appendToLast_clean sp.levels _ hc (leafDataNode_clean m sd)
  · split at h
    · cases h
    · cases h
    · rename_i x xs m cs heq
      cases h
      have hdec := splitLast_append sp.levels (x :: xs) (m, cs) heq
      rw [hdec] at hc
      simp only [List.all_append, List.all_cons, List.all_nil, Bool.and_eq_true,
        Bool.and_true] at hc
      refine appendToLast_clean (x :: xs) _ (by simp [hc.1.1, hc.1.2]) ?_
      exact (cleanNode_loop_iff m cs).mpr (by
        intro c hcm
        exact List.all_eq_true.mp hc.2 c hcm)

/-- The pop phase keeps the spine clean. -/
theorem doPops_clean (pops : List MapNode) (sp sp' : Spine)
    (h : doPops sp pops = .ok sp') (hc : cleanSpine (some sp) = true) :
    cleanSpine (some sp') = true := by
  induction pops generalizing sp with
  | nil =>
    simp only [doPops] at h
    cases h
    exact hc
  | cons l rest ih =>
    simp only [doPops] at h
    cases hp : popOne sp with
    | none => simp only [hp] at h; exact Except.noConfusion h
    | some sp1 =>
      simp only [hp] at h
      by_cases hid : (cursorMap sp1).id = l.id
      · rw [if_pos hid] at h
        exact ih sp1 h (popOne_clean sp sp1 hp hc)
      · rw [if_neg hid] at h
        exact Except.noConfusion h

/-- The push phase keeps the spine clean (new levels start with no
children). -/
theorem doPushes_clean (pushes : List MapNode) (sp sp' : Spine)
    (h : doPushes sp pushes = .ok sp') (hc : cleanSpine (some sp) = true) :
    cleanSpine (some sp') = true := by
  induction pushes generalizing sp with
  | nil =>
    simp only [doPushes] at h
    cases h
    exact hc
  | cons l rest ih =>
    simp only [doPushes] at h
    split at h
    · exact Except.noConfusion h
    · refine ih _ h ?_
      simp only [cleanSpine] at hc ⊢
      simp [hc]

/-- Attaching a leaf keeps the spine clean. -/
theorem attachLeaf_clean (sp sp' : Spine) (m : MapNode) (sd : Seg)
    (h : attachLeaf sp m sd = .ok sp') (hc : cleanSpine (some sp) = true) :
    cleanSpine (some sp') = true := by
  unfold attachLeaf at h
  split at h
  · exact Except.noConfusion h
  · cases h
    simpa [cleanSpine] using hc

/-- `_add_segment` keeps the spine clean. -/
theorem addSegment_clean (sp sp' : Spine) (segN : MapNode) (sd : Seg)
    (h : addSegment sp segN sd = .ok sp') (hc : cleanSpine (some sp) = true) :
    cleanSpine (some sp') = true := by
  unfold addSegment at h
  split at h
  · exact Except.noConfusion h
  · simp only [bind, Except.bind] at h
    split at h
    · cases hpop : doPops sp (getPopLoops (cursorMap sp) segN) with
      | error e => rw [hpop] at h; simp at h
      | ok sp1 =>
        rw [hpop] at h
        simp only at h
        cases hpush : doPushes sp1 (getPushLoops (cursorMap sp1) segN) with
        | error e => rw [hpush] at h; simp at h
        | ok sp2 =>
          rw [hpush] at h
          simp only at h
          have h1 := doPops_clean _ sp sp1 hpop hc
          have h2 := doPushes_clean _ sp1 sp2 hpush h1
          exact attachLeaf_clean sp2 sp' segN sd h h2
    · exact attachLeaf_clean sp sp' segN sd h hc

/-- Closing a clean spine gives a clean tree. -/
theorem finalizeSpine_clean (sp : Spine) (d : DataNode)
    (h : finalizeSpine sp = some d) (hc : cleanSpine (some sp) = true) :
    cleanNode d = true := by
  simp only [cleanSpine] at hc
  unfold finalizeSpine at h
  have hlv : (match sp.leaf with
      | some (m, sd) => appendToLast sp.levels (leafDataNode m sd)
      | none => sp.levels).all (fun x => x.2.all cleanNode) = true := by
    split
    · rename_i m sd heq
      exact appendToLast_clean sp.levels _ hc (leafDataNode_clean m sd)
    · exact hc
  generalize (match sp.leaf with
      | some (m, sd) => appendToLast sp.levels (leafDataNode m sd)
      | none => sp.levels) = lv at h hlv
  induction lv generalizing d with
  | nil => simp at h
  | cons x xs ih =>
    simp only [List.foldr_cons, Option.some.injEq] at h
    simp only [List.all_cons, Bool.and_eq_true] at hlv
    rw [← h]
    refine (cleanNode_loop_iff x.1 _).mpr ?_
    intro c hcm
    rcases List.mem_append.mp hcm with hcm | hcm
    · exact List.all_eq_true.mp hlv.1 c hcm
    · cases hf : xs.foldr (fun x acc => some (DataNode.loop x.1 (x.2 ++ acc.toList))) none with
      | none => rw [hf] at hcm; simp at hcm
      | some d0 =>
        rw [hf] at hcm
        simp only [Option.toList, List.mem_singleton] at hcm
        rw [hcm]
        exact ih d0 hf hlv.2

/-- Every tree yielded from a clean buffer is clean. -/
theorem treeYield_clean (t : Option Spine) (n : DataNode)
    (h : n ∈ treeYield t) (hc : cleanSpine t = true) : cleanNode n = true := by
  cases t with
  | none => simp [treeYield] at h
  | some sp =>
    simp only [treeYield] at h
    cases hf : finalizeSpine sp with
    | none => rw [hf] at h; simp at h
    | some d =>
      rw [hf] at h
      simp [Option.toList] at h
      rw [h]
      exact finalizeSpine_clean sp d hf hc

/-- The yield phase keeps the buffered tree clean, and every completed loop
tree it yields is clean. -/
theorem yieldPhase_clean (lid : Option String) (st st2 : RState) (seg : Seg)
    (evs evs2 : List ErrEvent) (ys : List DataNode)
    (h : yieldPhase lid st seg evs = .ok (st2, ys, evs2))
    (hc : cleanSpine st.curTree = true) :
    cleanSpine st2.curTree = true
    ∧ ∀ n ∈ ys, isLoopNode n = true → cleanNode n = true := by
  simp only [yieldPhase] at h
  cases lid with
  | none =>
    simp only at h
    cases h
    unfold flatYield
    cases hpm : prevMapNode st with
    | some pm =>
      refine ⟨by simp [cleanSpine], ?_⟩
      intro n hn _
      simp only [List.mem_append, List.mem_singleton] at hn
      rcases hn with hn | hn
      · exact treeYield_clean st.curTree n hn hc
      · rename_i hloop
        rw [hn] at hloop
        simp [isLoopNode] at hloop
    | none =>
      refine ⟨by simp [cleanSpine], ?_⟩
      intro n hn _
      simp only [List.mem_append, List.mem_singleton] at hn
      rcases hn with hn | hn
      · exact treeYield_clean st.curTree n hn hc
      · rename_i hloop
        rw [hn] at hloop
        simp [isLoopNode] at hloop
  | some l =>
    simp only at h
    by_cases hmem : l ∈ st.cursor.path
    · rw [if_pos hmem] at h
      cases hsl : st.cursor.path.dropLast.getLast? with
      | none => simp only [hsl] at h; exact (Except.noConfusion h)
      | some sndLast =>
        simp only [hsl] at h
        by_cases hdet : sndLast = l ∧ st.cursor.firstSeg = true
        · rw [if_pos hdet] at h
          simp only [bind, Except.bind] at h
          cases hadd : addSegment ⟨[(loopNode st.cursor.path.dropLast, [])], none⟩
              st.cursor seg with
          | error e => rw [hadd] at h; exact (Except.noConfusion h)
          | ok sp1 =>
            rw [hadd] at h
            cases h
            refine ⟨?_, ?_⟩
            · simpa using addSegment_clean _ sp1 _ _ hadd (by simp [cleanSpine])
            · intro n hn _
              exact treeYield_clean st.curTree n hn hc
        · rw [if_neg hdet] at h
          cases hcd : st.curData with
          | cdInTree =>
            cases hct : st.curTree with
            | none => simp only [hcd, hct] at h; exact (Except.noConfusion h)
            | some sp =>
              simp only [hcd, hct, bind, Except.bind] at h
              cases hadd : addSegment sp st.cursor seg with
              | error e => rw [hadd] at h; exact (Except.noConfusion h)
              | ok sp1 =>
                rw [hadd] at h
                cases h
                refine ⟨?_, by simp⟩
                rw [hct] at hc
                simpa using addSegment_clean sp sp1 _ _ hadd hc
          | cdNone => simp only [hcd] at h; exact (Except.noConfusion h)
          | cdFlat m =>
            cases hct : st.curTree with
            | none => simp only [hcd, hct] at h; exact (Except.noConfusion h)
            | some sp => simp only [hcd, hct] at h; exact (Except.noConfusion h)
    · rw [if_neg hmem] at h
      cases h
      unfold flatYield
      cases hpm : prevMapNode st with
      | some pm =>
        refine ⟨by simp [cleanSpine], ?_⟩
        intro n hn _
        simp only [List.mem_append, List.mem_singleton] at hn
        rcases hn with hn | hn
        · exact treeYield_clean st.curTree n hn hc
        · rename_i hloop
          rw [hn] at hloop
          simp [isLoopNode] at hloop
      | none =>
        refine ⟨by simp [cleanSpine], ?_⟩
        intro n hn _
        simp only [List.mem_append, List.mem_singleton] at hn
        rcases hn with hn | hn
        · exact treeYield_clean st.curTree n hn hc
        · rename_i hloop
          rw [hn] at hloop
          simp [isLoopNode] at hloop

/-- One full step keeps trees clean. -/
theorem stepSeg_clean (env : Env) (lid : Option String) (st st2 : RState)
    (seg : Seg) (ys : List DataNode) (evs : List ErrEvent)
    (h : stepSeg env lid st seg = .ok (st2, ys, evs))
    (hc : cleanSpine st.curTree = true) :
    cleanSpine st2.curTree = true
    ∧ ∀ n ∈ ys, isLoopNode n = true → cleanNode n = true := by
  unfold stepSeg at h
  cases hres : resolveSeg env st.cursor seg with
  | none =>
    simp only [hres] at h
    have heta : ({ st with cursor := st.cursor } : RState) = st := rfl
    rw [heta] at h
    exact yieldPhase_clean lid st st2 seg [] evs ys h hc
  | some n =>
    simp only [hres, bind, Except.bind] at h
    cases hse : sideEffects env { st with cursor := n } seg with
    | error e => rw [hse] at h; exact Except.noConfusion h
    | ok p =>
      obtain ⟨st1, evs1⟩ := p
      rw [hse] at h
      simp only at h
      have hpres := sideEffects_preserves env { st with cursor := n } st1 seg _ hse
      have ht : st1.curTree = st.curTree := hpres.1
      exact yieldPhase_clean lid st1 st2 seg _ evs ys h (by rw [ht]; exact hc)

/-- A whole run keeps trees clean. -/
theorem runSegs_clean (env : Env) (lid : Option String) (segs : List Seg)
    (st st2 : RState) (ys : List DataNode) (evs : List ErrEvent)
    (h : runSegs env lid segs st = .ok (st2, ys, evs))
    (hc : cleanSpine st.curTree = true) :
    cleanSpine st2.curTree = true
    ∧ ∀ n ∈ ys, isLoopNode n = true → cleanNode n = true := by
  induction segs generalizing st ys evs with
  | nil =>
    simp only [runSegs] at h
    cases h
    exact ⟨hc, by simp⟩
  | cons s rest ih =>
    simp only [runSegs, bind, Except.bind] at h
    cases hstep : stepSeg env lid st s with
    | error e => rw [hstep] at h; exact Except.noConfusion h
    | ok p =>
      obtain ⟨st1, ys1, evs1⟩ := p
      rw [hstep] at h
      simp only at h
      cases hrun : runSegs env lid rest st1 with
      | error e => rw [hrun] at h; exact Except.noConfusion h
      | ok q =>
        obtain ⟨stf, ys2, evs2⟩ := q
        rw [hrun] at h
        simp only at h
        cases h
        have h1 := stepSeg_clean env lid st st1 s ys1 evs1 hstep hc
        have h2 := ih st1 ys2 evs2 hrun h1.1
        refine ⟨h2.1, ?_⟩
        intro n hn hloop
        rcases List.mem_append.mp hn with hn | hn
        · exact h1.2 n hn hloop
        · exact h2.2 n hn hloop

/-- C5 amended: every completed loop tree yielded by the reader has a
well-nested `iterate_loop_segments` event stream (each `loop_start` is
closed by the matching `loop_end` at the same depth and the depth never
goes negative); a flat segment node instead emits its `start_loops` as
`loop_start` events, the segment, then its `end_loops` as `loop_end`
events, a sequence that need not be balanced. -/
theorem c5_amended_tree_events_well_nested (env : Env) (lid : Option String)
    (segs : List Seg) (cc : List (List String × Nat)) (st2 : RState)
    (ys : List DataNode) (evs : List ErrEvent)
    (h : runSegs env lid segs (initState cc) = .ok (st2, ys, evs)) :
    (∀ t ∈ ys, isLoopNode t = true → wellNested (iterateLoopSegments t) = true)
    ∧ ∀ (m : MapNode) (sd : Seg) (sl el : List MapNode) (r1 r2 : Nat),
        DataNode.seg m sd sl el r1 r2 ∈ ys →
        iterateLoopSegments (DataNode.seg m sd sl el r1 r2) =
          sl.map (fun l => LoopEvent.loopStart l.id) ++ [LoopEvent.segEv m.id]
            ++ el.map (fun l => LoopEvent.loopEnd l.id) := by
  have hclean := runSegs_clean env lid segs (initState cc) st2 ys evs h rfl
  refine ⟨?_, ?_⟩
  · intro t ht hloop
    exact wellNested_of_clean t (hclean.2 t ht hloop)
  · intro m sd sl el r1 r2 _
    rw [iterateLoopSegments]

/-- Witness for the amended C5: the concrete scoped run whose first yield
is a completed `B` tree. -/
theorem c5_amended_witness :
    (∀ t ∈ ysC3, isLoopNode t = true → wellNested (iterateLoopSegments t) = true)
    ∧ ∀ (m : MapNode) (sd : Seg) (sl el : List MapNode) (r1 r2 : Nat),
        DataNode.seg m sd sl el r1 r2 ∈ ysC3 →
        iterateLoopSegments (DataNode.seg m sd sl el r1 r2) =
          sl.map (fun l => LoopEvent.loopStart l.id) ++ [LoopEvent.segEv m.id]
            ++ el.map (fun l => LoopEvent.loopEnd l.id) :=
  c5_amended_tree_events_well_nested envT (some "B") [sA, sC] [] stC3 ysC3
    [ErrEvent.addSeg, ErrEvent.handleErrors, ErrEvent.addSeg, ErrEvent.handleErrors] rfl
